import Mathlib

/-!
# Verification of the entity-builder fetch pipeline

Shallow embedding of `entity_builder.ts` (fetch pipeline: id parsing,
deduplication, batching, stored-function probing, result ordering),
`hydrateResults` (the hydrator), `_buildQueryTree` (the query-tree builder,
with `setupAlias` from `entity_builder_util`), and `set_relation.ts`.

Database interaction is modelled by an environment of abstract query
functions; properties of the database (e.g. primary-key uniqueness of
returned rows) appear as explicit hypotheses of the theorems.
-/

namespace EntityBuilder

/-! ## List utilities modelling lodash `uniq`, `chunk` and `sortBy` -/

/-- lodash `uniq`: drop duplicates keeping the first occurrence.
Mirrors the lodash implementation (push each element not yet seen). -/
def uniqAux {α : Type} [DecidableEq α] (seen : List α) : List α → List α
  | [] => []
  | x :: xs => if x ∈ seen then uniqAux seen xs else x :: uniqAux (x :: seen) xs

/-- `uniq(array)` from lodash, used at `entity_builder.ts:702`. -/
def uniq {α : Type} [DecidableEq α] (l : List α) : List α := uniqAux [] l

theorem uniqAux_sublist {α : Type} [DecidableEq α] (seen : List α) :
    ∀ l : List α, List.Sublist (uniqAux seen l) l := by
  intro l
  induction l generalizing seen with
  | nil => simp [uniqAux]
  | cons x xs ih =>
    simp only [uniqAux]
    split
    · exact (ih seen).trans (List.sublist_cons_self x xs)
    · exact (ih (x :: seen)).cons₂ x

theorem mem_uniqAux {α : Type} [DecidableEq α] {a : α} {seen : List α} :
    ∀ {l : List α}, a ∈ uniqAux seen l ↔ a ∈ l ∧ a ∉ seen := by
  intro l
  induction l generalizing seen with
  | nil => simp [uniqAux]
  | cons x xs ih =>
    simp only [uniqAux]
    split
    · rename_i hx
      rw [ih, List.mem_cons]
      constructor
      · rintro ⟨h1, h2⟩
        exact ⟨Or.inr h1, h2⟩
      · rintro ⟨rfl | h1, h2⟩
        · exact absurd hx h2
        · exact ⟨h1, h2⟩
    · rename_i hx
      simp only [List.mem_cons, ih, List.mem_cons]
      constructor
      · rintro (rfl | ⟨h1, h2⟩)
        · exact ⟨Or.inl rfl, hx⟩
        · exact ⟨Or.inr h1, fun hs => h2 (Or.inr hs)⟩
      · rintro ⟨h1, h2⟩
        by_cases hax : a = x
        · exact Or.inl hax
        · rcases h1 with rfl | h1
          · exact Or.inl rfl
          · refine Or.inr ⟨h1, fun hs => ?_⟩
            rcases hs with hs | hs
            · exact hax hs
            · exact h2 hs

theorem nodup_uniqAux {α : Type} [DecidableEq α] (seen : List α) :
    ∀ l : List α, (uniqAux seen l).Nodup := by
  intro l
  induction l generalizing seen with
  | nil => simp [uniqAux]
  | cons x xs ih =>
    simp only [uniqAux]
    split
    · exact ih seen
    · refine List.nodup_cons.mpr ⟨fun hmem => ?_, ih (x :: seen)⟩
      exact (mem_uniqAux.mp hmem).2 (List.mem_cons_self x seen)

theorem uniq_sublist {α : Type} [DecidableEq α] (l : List α) :
    List.Sublist (uniq l) l :=
  uniqAux_sublist [] l

theorem mem_uniq {α : Type} [DecidableEq α] {a : α} {l : List α} :
    a ∈ uniq l ↔ a ∈ l := by
  simp [uniq, mem_uniqAux]

theorem nodup_uniq {α : Type} [DecidableEq α] (l : List α) : (uniq l).Nodup :=
  nodup_uniqAux [] l

/-- Structural worker for `chunk` (fuel bounds the recursion depth so the
definition reduces inside the kernel; `chunk` instantiates the fuel with the
list's length, which always suffices). -/
def chunkFuel {α : Type} (n : ℕ) : ℕ → List α → List (List α)
  | _, [] => []
  | 0, _ :: _ => []
  | fuel + 1, x :: xs => (x :: xs.take (n - 1)) :: chunkFuel n fuel (xs.drop (n - 1))

/-- lodash `chunk`: split a list into consecutive slices of `n` elements
(the last slice may be shorter).  Used at `entity_builder.ts:602` with
`MAX_FN_ARGUMENTS`. -/
def chunk {α : Type} (n : ℕ) (l : List α) : List (List α) := chunkFuel n l.length l

theorem chunkFuel_congr {α : Type} (n : ℕ) :
    ∀ (fuel fuel' : ℕ) (l : List α), l.length ≤ fuel → l.length ≤ fuel' →
      chunkFuel n fuel l = chunkFuel n fuel' l := by
  intro fuel
  induction fuel with
  | zero =>
    intro fuel' l h _
    have hl : l = [] := List.eq_nil_of_length_eq_zero (by omega)
    subst hl
    cases fuel' <;> simp [chunkFuel]
  | succ k ih =>
    intro fuel' l h h'
    match l with
    | [] => cases fuel' <;> simp [chunkFuel]
    | x :: xs =>
      match fuel' with
      | 0 => simp at h'
      | f' + 1 =>
        simp only [chunkFuel]
        rw [ih f' (xs.drop (n - 1))
          (by simp only [List.length_drop]; simp at h; omega)
          (by simp only [List.length_drop]; simp at h'; omega)]

theorem chunk_nil {α : Type} (n : ℕ) : chunk n ([] : List α) = [] := rfl

theorem chunk_cons {α : Type} (n : ℕ) (x : α) (xs : List α) :
    chunk n (x :: xs) = (x :: xs.take (n - 1)) :: chunk n (xs.drop (n - 1)) := by
  show chunkFuel n (xs.length + 1) (x :: xs) = _
  simp only [chunkFuel]
  rw [chunkFuel_congr n xs.length (xs.drop (n - 1)).length (xs.drop (n - 1))
    (by simp only [List.length_drop]; omega) le_rfl]
  rfl

theorem chunk_flatten_aux {α : Type} (n fuel : ℕ) :
    ∀ l : List α, l.length ≤ fuel → (chunk n l).flatten = l := by
  induction fuel with
  | zero =>
    intro l h
    have hl : l = [] := List.eq_nil_of_length_eq_zero (by omega)
    subst hl
    simp [chunk_nil]
  | succ k ih =>
    intro l h
    match l with
    | [] => simp [chunk_nil]
    | x :: xs =>
      rw [chunk_cons]
      simp only [List.flatten_cons]
      rw [ih (xs.drop (n - 1)) (by simp only [List.length_drop]; simp at h; omega)]
      simp [List.take_append_drop]

theorem chunk_flatten {α : Type} (n : ℕ) (l : List α) : (chunk n l).flatten = l :=
  chunk_flatten_aux n l.length l le_rfl

theorem chunk_length_aux {α : Type} (n fuel : ℕ) (hn : 1 ≤ n) :
    ∀ l : List α, l.length ≤ fuel → (chunk n l).length = (l.length + n - 1) / n := by
  induction fuel with
  | zero =>
    intro l h
    have hl : l = [] := List.eq_nil_of_length_eq_zero (by omega)
    subst hl
    rw [chunk_nil]
    simp only [List.length_nil, Nat.zero_add]
    rw [Nat.div_eq_of_lt (by omega)]
  | succ k ih =>
    intro l h
    match l with
    | [] =>
      rw [chunk_nil]
      simp only [List.length_nil, Nat.zero_add]
      rw [Nat.div_eq_of_lt (by omega)]
    | x :: xs =>
      rw [chunk_cons]
      simp only [List.length_cons]
      rw [ih (xs.drop (n - 1)) (by simp only [List.length_drop]; simp at h; omega)]
      simp only [List.length_drop]
      rcases Nat.lt_or_ge (xs.length + 1) n with hlt | hge
      · have h1 : xs.length - (n - 1) = 0 := by omega
        have h2 : (xs.length + 1 + n - 1) / n = 1 :=
          Nat.div_eq_of_lt_le (by omega) (by omega)
        rw [h1, h2]
        rw [Nat.div_eq_of_lt (by omega)]
      · have h1 : xs.length - (n - 1) + n - 1 = xs.length := by omega
        have h2 : xs.length + 1 + n - 1 = xs.length + n := by omega
        rw [h1, h2, Nat.add_div_right _ (by omega)]

theorem chunk_length {α : Type} (n : ℕ) (hn : 1 ≤ n) (l : List α) :
    (chunk n l).length = (l.length + n - 1) / n :=
  chunk_length_aux n l.length hn l le_rfl

theorem chunk_mem_length_le_aux {α : Type} (n fuel : ℕ) :
    ∀ l : List α, l.length ≤ fuel → ∀ b ∈ chunk n l, b.length ≤ max n 1 := by
  induction fuel with
  | zero =>
    intro l h
    have hl : l = [] := List.eq_nil_of_length_eq_zero (by omega)
    subst hl
    simp [chunk_nil]
  | succ k ih =>
    intro l h
    match l with
    | [] => simp [chunk_nil]
    | x :: xs =>
      rw [chunk_cons]
      intro b hb
      rcases List.mem_cons.mp hb with rfl | hb
      · simp only [List.length_cons]
        have := List.length_take_le (n - 1) xs
        omega
      · exact ih (xs.drop (n - 1))
          (by simp only [List.length_drop]; simp at h; omega) b hb

theorem chunk_mem_length_le {α : Type} (n : ℕ) (l : List α) :
    ∀ b ∈ chunk n l, b.length ≤ max n 1 :=
  chunk_mem_length_le_aux n l.length l le_rfl

/-- lodash `sortBy` with a single numeric iteratee: a stable ascending sort
by the key.  Modelled with insertion sort (stable, ascending). -/
def sortByKey {α : Type} (key : α → ℤ) (l : List α) : List α :=
  List.insertionSort (fun a b => key a ≤ key b) l

theorem sortByKey_perm {α : Type} (key : α → ℤ) (l : List α) :
    List.Perm (sortByKey key l) l :=
  List.perm_insertionSort _ l

theorem sortByKey_sorted {α : Type} (key : α → ℤ) (l : List α) :
    (sortByKey key l).Pairwise (fun a b => key a ≤ key b) := by
  haveI : IsTotal α (fun a b => key a ≤ key b) := ⟨fun a b => Int.le_total _ _⟩
  haveI : IsTrans α (fun a b => key a ≤ key b) := ⟨fun a b c h1 h2 => le_trans h1 h2⟩
  exact List.sorted_insertionSort _ l

/-- JavaScript `Array.prototype.indexOf`: index of the first occurrence,
`-1` when absent. -/
def jsIndexOf {α : Type} [DecidableEq α] (l : List α) (a : α) : ℤ :=
  if a ∈ l then (l.indexOf a : ℤ) else -1

end EntityBuilder

/-! ## JavaScript `parseFloat`

`fetchEntities` maps `parseFloat` over the incoming id strings
(`entity_builder.ts:701`).  The model parses an optional sign, decimal
digits with an optional fraction and an optional exponent, after skipping
leading whitespace, and returns `none` for `NaN` (no digits consumed).
Arithmetic is exact (ℚ); float rounding is not modelled. -/

namespace EntityBuilder

/-- Numeric value of a digit run (most significant first). -/
def digitsVal (l : List Char) : ℕ :=
  l.foldl (fun a c => 10 * a + (c.toNat - 48)) 0

/-- Whitespace skipped by `parseFloat`. -/
def isJsSpace (c : Char) : Bool :=
  c == ' ' || c == '\t' || c == '\n' || c == '\r'

/-- Model of JavaScript `parseFloat` (`NaN` becomes `none`).  The value
`sign * (int.frac) * 10^exp` is assembled with integer arithmetic and a
single `mkRat` so that it evaluates inside the kernel. -/
def parseFloat (s : String) : Option ℚ :=
  let cs0 := s.data.dropWhile isJsSpace
  let sign : ℤ := match cs0 with
    | '-' :: _ => -1
    | _ => 1
  let cs1 : List Char := match cs0 with
    | '-' :: rest => rest
    | '+' :: rest => rest
    | _ => cs0
  let intDigits := cs1.takeWhile Char.isDigit
  let cs2 := cs1.dropWhile Char.isDigit
  let fracDigits : List Char := match cs2 with
    | '.' :: rest => rest.takeWhile Char.isDigit
    | _ => []
  let cs3 : List Char := match cs2 with
    | '.' :: rest => rest.dropWhile Char.isDigit
    | _ => cs2
  if intDigits.isEmpty && fracDigits.isEmpty then none
  else
    let num0 : ℤ := sign * ((digitsVal intDigits : ℤ) * 10 ^ fracDigits.length + (digitsVal fracDigits : ℤ))
    let den0 : ℕ := 10 ^ fracDigits.length
    let expVal : Option ℤ := match cs3 with
      | 'e' :: rest | 'E' :: rest =>
        let esign : ℤ := match rest with
          | '-' :: _ => -1
          | _ => 1
        let rest1 : List Char := match rest with
          | '-' :: r => r
          | '+' :: r => r
          | _ => rest
        let eDigits := rest1.takeWhile Char.isDigit
        if eDigits.isEmpty then none else some (esign * (digitsVal eDigits : ℤ))
      | _ => none
    let e : ℤ := expVal.getD 0
    if 0 ≤ e then some (mkRat (num0 * 10 ^ e.toNat) den0)
    else some (mkRat num0 (den0 * 10 ^ (-e).toNat))

theorem parseFloat_five : parseFloat "5" = some 5 := by decide

theorem parseFloat_five_point_zero : parseFloat "5.0" = some 5 := by decide

theorem parseFloat_five_abc : parseFloat "5abc" = some 5 := by decide

theorem parseFloat_nan : parseFloat "abc" = none := by decide

theorem parseFloat_neg_frac : parseFloat "-2.5" = some (mkRat (-5) 2) := by decide

theorem parseFloat_exponent : parseFloat " 12e1" = some 120 := by decide

theorem parseFloat_neg_exponent : parseFloat "2.5e-1" = some (mkRat 1 4) := by decide

theorem parseFloat_empty : parseFloat "" = none := by decide

end EntityBuilder

/-! ## The executor: `fetchNodes` / `fetchEntities`

`entity_builder.ts:593-716`.  The database is abstracted by `Env`:
`fnExists batch` tells whether the stored function for the batch already
exists (the existence probe `execute_if_exists_nN` returns a single NULL
row exactly when it does not), and `query batch` gives the rows the
compiled query produces for the batch — identical for all three execution
paths (probe hit, raw inlined query, create-then-invoke), which all run
the same compiled SQL.  The SQL statements issued and the hook calls are
recorded as a list of `Event`s. -/

namespace EntityBuilder

/-- An id value as passed to `fetchEntities`.  The signature says
`string[]`; anything else can only arrive through unsound casts, which the
development-mode guard checks for (`entity_builder.ts:694-699`). -/
inductive JsVal where
  | str (s : String)
  | nonString
deriving DecidableEq, Repr

/-- `!id || typeof id !== "string"`: the development-mode bad-id test. -/
def isBadId : JsVal → Bool
  | .str s => s == ""
  | .nonString => true

/-- `parseFloat` applied to an incoming id (`ids.map(parseFloat)`). -/
def parseId : JsVal → Option ℚ
  | .str s => parseFloat s
  | .nonString => none

/-- A row returned by the compiled query; `id` is the root primary key and
`payload` abstracts the rest of the JSON object. -/
structure DbRow where
  id : ℚ
  payload : ℤ
deriving DecidableEq, Repr

/-- Observable actions of one fetch: SQL statements and hook calls. -/
inductive Event where
  | beginTx
  | onRequest
  | probe
  | createFn
  | invokeFn
  | rawQuery
deriving DecidableEq, Repr

/-- Abstract database environment of a fetch. -/
structure Env where
  txActive : Bool
  fnExists : List (Option ℚ) → Bool
  query : List (Option ℚ) → List DbRow

/-- `EntityBuilderCheckerFunctions1541678210293.MAX_FN_ARGUMENTS`. -/
def MAX_FN_ARGUMENTS : ℕ := 99

/-- One batch of `fetchNodes` (`entity_builder.ts:602-629`): call
`onRequset`, probe via the checker function; on a single-NULL answer
either run the raw query (inside a transaction) or create the stored
function and invoke it. -/
def execBatch (env : Env) (txNow : Bool) (batch : List (Option ℚ)) :
    List Event × List DbRow :=
  if env.fnExists batch then
    ([Event.onRequest, Event.probe], env.query batch)
  else if txNow then
    ([Event.onRequest, Event.probe, Event.rawQuery], env.query batch)
  else
    ([Event.onRequest, Event.probe, Event.createFn, Event.invokeFn], env.query batch)

/-- `fetchNodes` (`entity_builder.ts:593-645`): sequentially execute the
batches of at most `MAX_FN_ARGUMENTS` ids, concatenating events and rows. -/
def fetchNodes (env : Env) (txNow : Bool) (ids : List (Option ℚ)) :
    List Event × List DbRow :=
  (chunk MAX_FN_ARGUMENTS ids).foldl
    (fun acc batch =>
      (acc.1 ++ (execBatch env txNow batch).1, acc.2 ++ (execBatch env txNow batch).2))
    ([], [])

/-- `const numericIds = ids.map(parseFloat)` (`entity_builder.ts:701`). -/
def numericIdsOf (ids : List JsVal) : List (Option ℚ) := ids.map parseId

/-- `const uniqIds = uniq(numericIds)` (`entity_builder.ts:702`). -/
def uniqIdsOf (ids : List JsVal) : List (Option ℚ) := uniq (numericIdsOf ids)

/-- The condition of `entity_builder.ts:709`: a fresh transaction is opened
iff more than `MAX_FN_ARGUMENTS` unique ids are requested and no outer
transaction is active. -/
def openTxOf (env : Env) (ids : List JsVal) : Bool :=
  decide (MAX_FN_ARGUMENTS < (uniqIdsOf ids).length) && !env.txActive

/-- Whether a transaction is active while the batches run (the outer one,
or the one `fetchEntities` itself opened). -/
def txNowOf (env : Env) (ids : List JsVal) : Bool :=
  env.txActive || openTxOf env ids

/-- The `sortBy` iteratee `e => numericIds.indexOf(e.id)`
(`entity_builder.ts:706`). -/
def rowKeyOf (ids : List JsVal) (row : DbRow) : ℤ :=
  jsIndexOf (numericIdsOf ids) (some row.id)

/-- `fetchEntities` (`entity_builder.ts:687-716`).  Returns `Except.error`
for the development-mode id check throw (no SQL issued), otherwise the
events issued and the final sorted rows. -/
def fetchEntities (isDevEnv : Bool) (env : Env) (ids : List JsVal) :
    Except Unit (List Event × List DbRow) :=
  if ids.isEmpty then Except.ok ([], [])
  else if isDevEnv && ids.any isBadId then Except.error ()
  else
    let r := fetchNodes env (txNowOf env ids) (uniqIdsOf ids)
    Except.ok ((if openTxOf env ids then [Event.beginTx] else []) ++ r.1,
      sortByKey (rowKeyOf ids) r.2)

theorem foldl_append_pair {β γ δ : Type} (f : β → List γ) (g : β → List δ) :
    ∀ (l : List β) (acc : List γ × List δ),
      l.foldl (fun acc b => (acc.1 ++ f b, acc.2 ++ g b)) acc
        = (acc.1 ++ (l.map f).flatten, acc.2 ++ (l.map g).flatten) := by
  intro l
  induction l with
  | nil => simp
  | cons b bs ih =>
    intro acc
    simp only [List.foldl_cons, List.map_cons, List.flatten_cons]
    rw [ih]
    simp

theorem fetchNodes_events (env : Env) (txNow : Bool) (ids : List (Option ℚ)) :
    (fetchNodes env txNow ids).1
      = ((chunk MAX_FN_ARGUMENTS ids).map (fun b => (execBatch env txNow b).1)).flatten := by
  unfold fetchNodes
  rw [foldl_append_pair]
  simp

theorem fetchNodes_rows (env : Env) (txNow : Bool) (ids : List (Option ℚ)) :
    (fetchNodes env txNow ids).2
      = ((chunk MAX_FN_ARGUMENTS ids).map (fun b => env.query b)).flatten := by
  unfold fetchNodes
  rw [foldl_append_pair]
  have hrows : ∀ b, (execBatch env txNow b).2 = env.query b := by
    intro b
    unfold execBatch
    split
    · rfl
    · split <;> rfl
  simp only [hrows, List.nil_append]

end EntityBuilder

namespace EntityBuilder

theorem fetchEntities_ok_spec (d : Bool) (env : Env) (ids : List JsVal)
    (evs : List Event) (rows : List DbRow)
    (hok : fetchEntities d env ids = Except.ok (evs, rows)) :
    evs = (if openTxOf env ids then [Event.beginTx] else [])
        ++ (fetchNodes env (txNowOf env ids) (uniqIdsOf ids)).1
    ∧ rows = sortByKey (rowKeyOf ids) (fetchNodes env (txNowOf env ids) (uniqIdsOf ids)).2 := by
  unfold fetchEntities at hok
  split at hok
  · rename_i hempty
    have hids : ids = [] := by
      cases ids
      · rfl
      · simp at hempty
    subst hids
    have h1 : uniqIdsOf [] = [] := rfl
    have h2 : openTxOf env [] = false := rfl
    injection hok with hpair
    have he : evs = [] := (congrArg Prod.fst hpair).symm
    have hr : rows = [] := (congrArg Prod.snd hpair).symm
    subst he
    subst hr
    rw [h1, h2]
    constructor
    · rfl
    · rfl
  · split at hok
    · exact absurd hok (by simp)
    · injection hok with hpair
      exact ⟨(congrArg Prod.fst hpair).symm, (congrArg Prod.snd hpair).symm⟩

/-- The chunks of a duplicate-free list are pairwise disjoint and each is
duplicate-free. -/
theorem chunk_nodup_disjoint {α : Type} (n : ℕ) (l : List α) (h : l.Nodup) :
    (∀ b ∈ chunk n l, b.Nodup) ∧ (chunk n l).Pairwise List.Disjoint := by
  have hflat : (chunk n l).flatten.Nodup := by
    rw [chunk_flatten]
    exact h
  exact List.nodup_flatten.mp hflat

theorem fetchNodes_rows_id_nodup (env : Env) (txNow : Bool) (ids0 : List (Option ℚ))
    (hids : ids0.Nodup)
    (hq1 : ∀ b, ∀ r ∈ env.query b, some r.id ∈ b)
    (hq2 : ∀ b, ((env.query b).map DbRow.id).Nodup) :
    (((fetchNodes env txNow ids0).2).map DbRow.id).Nodup := by
  rw [fetchNodes_rows, List.map_flatten, List.map_map]
  obtain ⟨hnd, hdisj⟩ := chunk_nodup_disjoint MAX_FN_ARGUMENTS ids0 hids
  rw [List.nodup_flatten]
  constructor
  · intro l hl
    rw [List.mem_map] at hl
    obtain ⟨b, _, rfl⟩ := hl
    exact hq2 b
  · rw [List.pairwise_map]
    refine hdisj.imp ?_
    intro b1 b2 hd x hx1 hx2
    simp only [Function.comp, List.mem_map] at hx1 hx2
    obtain ⟨r1, hr1, rfl⟩ := hx1
    obtain ⟨r2, hr2, hid⟩ := hx2
    exact hd (hq1 b1 r1 hr1) (hid ▸ hq1 b2 r2 hr2)

theorem fetchNodes_rows_mem (env : Env) (txNow : Bool) (ids0 : List (Option ℚ))
    (hq1 : ∀ b, ∀ r ∈ env.query b, some r.id ∈ b) :
    ∀ r ∈ (fetchNodes env txNow ids0).2, some r.id ∈ ids0 := by
  rw [fetchNodes_rows]
  intro r hr
  rw [List.mem_flatten] at hr
  obtain ⟨l, hl, hrl⟩ := hr
  rw [List.mem_map] at hl
  obtain ⟨b, hb, rfl⟩ := hl
  have : some r.id ∈ b := hq1 b r hrl
  have := List.mem_flatten_of_mem hb this
  rwa [chunk_flatten] at this

end EntityBuilder

namespace EntityBuilder

/-- C1: for every list of requested ids, `fetchEntities` parses the ids to
numbers (`numericIdsOf`), deduplicates them preserving first-seen order
(`uniqIdsOf` is a duplicate-free sublist of the parsed sequence with the
same members), and returns at most one row per distinct id (row ids are
duplicate-free), each returned row's id being one of the parsed ids, with
the rows strictly ordered by the first occurrence of their id in the
original `ids` sequence (`rowKeyOf` is `numericIds.indexOf(row.id)`).
Hypotheses: each batch query returns only rows whose id was requested in
the batch, at most once per id (primary-key lookup). -/
theorem fetch_dedup_and_order (d : Bool) (env : Env) (ids : List JsVal)
    (evs : List Event) (rows : List DbRow)
    (hq1 : ∀ b, ∀ r ∈ env.query b, some r.id ∈ b)
    (hq2 : ∀ b, ((env.query b).map DbRow.id).Nodup)
    (hok : fetchEntities d env ids = Except.ok (evs, rows)) :
    List.Sublist (uniqIdsOf ids) (numericIdsOf ids)
    ∧ (uniqIdsOf ids).Nodup
    ∧ (∀ a, a ∈ uniqIdsOf ids ↔ a ∈ numericIdsOf ids)
    ∧ (rows.map DbRow.id).Nodup
    ∧ (∀ r ∈ rows, some r.id ∈ numericIdsOf ids)
    ∧ rows.Pairwise (fun a b => rowKeyOf ids a < rowKeyOf ids b) := by
  obtain ⟨-, hrows⟩ := fetchEntities_ok_spec d env ids evs rows hok
  subst hrows
  have hperm : List.Perm (sortByKey (rowKeyOf ids)
      (fetchNodes env (txNowOf env ids) (uniqIdsOf ids)).2)
      (fetchNodes env (txNowOf env ids) (uniqIdsOf ids)).2 := sortByKey_perm _ _
  have hRnodup : (((fetchNodes env (txNowOf env ids) (uniqIdsOf ids)).2).map DbRow.id).Nodup :=
    fetchNodes_rows_id_nodup env _ _ (nodup_uniq _) hq1 hq2
  have hnodup : ((sortByKey (rowKeyOf ids)
      (fetchNodes env (txNowOf env ids) (uniqIdsOf ids)).2).map DbRow.id).Nodup :=
    ((hperm.map DbRow.id).nodup_iff).mpr hRnodup
  have hmem : ∀ r ∈ sortByKey (rowKeyOf ids)
      (fetchNodes env (txNowOf env ids) (uniqIdsOf ids)).2, some r.id ∈ numericIdsOf ids := by
    intro r hr
    have hrR := hperm.mem_iff.mp hr
    have h1 := fetchNodes_rows_mem env _ _ hq1 r hrR
    exact mem_uniq.mp h1
  refine ⟨uniq_sublist _, nodup_uniq _, fun a => mem_uniq, hnodup, hmem, ?_⟩
  have hsorted := sortByKey_sorted (rowKeyOf ids)
    (fetchNodes env (txNowOf env ids) (uniqIdsOf ids)).2
  have hneq : (sortByKey (rowKeyOf ids)
      (fetchNodes env (txNowOf env ids) (uniqIdsOf ids)).2).Pairwise
      (fun a b => a.id ≠ b.id) := by
    have h1 : ((sortByKey (rowKeyOf ids)
        (fetchNodes env (txNowOf env ids) (uniqIdsOf ids)).2).map DbRow.id).Pairwise (· ≠ ·) :=
      hnodup
    rwa [List.pairwise_map] at h1
  refine (hsorted.and hneq).imp_of_mem ?_
  intro a b ha hb hab
  refine lt_of_le_of_ne hab.1 (fun hkey => ?_)
  have hma : some a.id ∈ numericIdsOf ids := hmem a ha
  have hmb : some b.id ∈ numericIdsOf ids := hmem b hb
  unfold rowKeyOf jsIndexOf at hkey
  rw [if_pos hma, if_pos hmb, Nat.cast_inj] at hkey
  have := (List.indexOf_inj hma hmb).mp hkey
  exact hab.2 (Option.some.injEq _ _ ▸ this)

/-- Concrete environment for the executor witnesses: no outer transaction,
stored function already existing, a single row with id 5. -/
def wEnv : Env :=
  { txActive := false
    fnExists := fun _ => true
    query := fun b => if some (5 : ℚ) ∈ b then [⟨5, 7⟩] else [] }

theorem wEnv_hq1 : ∀ b, ∀ r ∈ wEnv.query b, some r.id ∈ b := by
  intro b r hr
  by_cases h : some (5 : ℚ) ∈ b
  · simp only [wEnv, if_pos h, List.mem_singleton] at hr
    subst hr
    exact h
  · simp [wEnv, if_neg h] at hr

theorem wEnv_hq2 : ∀ b, ((wEnv.query b).map DbRow.id).Nodup := by
  intro b
  by_cases h : some (5 : ℚ) ∈ b
  · simp [wEnv, if_pos h]
  · simp [wEnv, if_neg h]

/-- Witness for C1 at `ids = ["3", "5", "3"]`. -/
theorem fetch_dedup_and_order_witness :
    fetchEntities false wEnv [JsVal.str "3", JsVal.str "5", JsVal.str "3"]
        = Except.ok ([Event.onRequest, Event.probe], [⟨5, 7⟩])
    ∧ (([(⟨5, 7⟩ : DbRow)].map DbRow.id).Nodup
       ∧ (∀ r ∈ [(⟨5, 7⟩ : DbRow)], some r.id
            ∈ numericIdsOf [JsVal.str "3", JsVal.str "5", JsVal.str "3"])
       ∧ ([(⟨5, 7⟩ : DbRow)] : List DbRow).Pairwise
           (fun a b => rowKeyOf [JsVal.str "3", JsVal.str "5", JsVal.str "3"] a
             < rowKeyOf [JsVal.str "3", JsVal.str "5", JsVal.str "3"] b)) :=
  ⟨rfl,
    (fetch_dedup_and_order false wEnv [JsVal.str "3", JsVal.str "5", JsVal.str "3"]
      [Event.onRequest, Event.probe] [⟨5, 7⟩] wEnv_hq1 wEnv_hq2 rfl).2.2.2⟩

end EntityBuilder

namespace EntityBuilder

theorem count_in_execBatch_events (env : Env) (txNow : Bool) (b : List (Option ℚ)) :
    (execBatch env txNow b).1.count Event.onRequest = 1
    ∧ (execBatch env txNow b).1.count Event.rawQuery
        = (if env.fnExists b then 0 else if txNow then 1 else 0)
    ∧ Event.beginTx ∉ (execBatch env txNow b).1
    ∧ (txNow = true → Event.createFn ∉ (execBatch env txNow b).1) := by
  unfold execBatch
  by_cases h1 : env.fnExists b
  · simp [h1]
  · by_cases h2 : txNow <;> simp [h1, h2]

theorem sum_map_ite_filter {β : Type} (p : β → Bool) (l : List β) :
    (l.map (fun b => if p b then 0 else 1)).sum = (l.filter (fun b => !p b)).length := by
  induction l with
  | nil => simp
  | cons x xs ih => by_cases h : p x <;> simp [h, ih, Nat.add_comm]

theorem sum_map_one {β : Type} (l : List β) :
    (l.map (fun _ => (1 : ℕ))).sum = l.length := by
  induction l with
  | nil => simp
  | cons x xs ih => simp [ih, Nat.add_comm]

/-- C2: during a fetch with an outer transaction active, no
`CREATE FUNCTION` is ever issued, and each batch whose stored function is
missing (single-NULL probe result) runs the raw compiled query instead —
the count of raw-query statements equals the number of missing-function
batches. -/
theorem fetch_no_create_in_tx (d : Bool) (env : Env) (ids : List JsVal)
    (evs : List Event) (rows : List DbRow)
    (htx : env.txActive = true)
    (hok : fetchEntities d env ids = Except.ok (evs, rows)) :
    Event.createFn ∉ evs
    ∧ evs.count Event.rawQuery
        = ((chunk MAX_FN_ARGUMENTS (uniqIdsOf ids)).filter
            (fun b => !env.fnExists b)).length := by
  obtain ⟨hevs, -⟩ := fetchEntities_ok_spec d env ids evs rows hok
  have hopen : openTxOf env ids = false := by
    simp [openTxOf, htx]
  have htxnow : txNowOf env ids = true := by
    simp [txNowOf, htx]
  rw [hopen, htxnow] at hevs
  rw [fetchNodes_events] at hevs
  simp only [if_neg (Bool.false_ne_true), List.nil_append] at hevs
  subst hevs
  constructor
  · intro hmem
    rw [List.mem_flatten] at hmem
    obtain ⟨l, hl, hc⟩ := hmem
    rw [List.mem_map] at hl
    obtain ⟨b, -, rfl⟩ := hl
    exact (count_in_execBatch_events env true b).2.2.2 rfl hc
  · rw [List.count_flatten, List.map_map]
    have hmap : ((chunk MAX_FN_ARGUMENTS (uniqIdsOf ids)).map
        (List.count Event.rawQuery ∘ fun b => (execBatch env true b).1))
        = (chunk MAX_FN_ARGUMENTS (uniqIdsOf ids)).map
            (fun b => if env.fnExists b then 0 else 1) := by
      refine List.map_congr_left ?_
      intro b _
      have h := (count_in_execBatch_events env true b).2.1
      simp only [Function.comp]
      rw [h]
      by_cases hf : env.fnExists b <;> simp [hf]
    rw [hmap, sum_map_ite_filter]

/-- Environment with an active outer transaction and no stored functions. -/
def wEnvTx : Env :=
  { txActive := true
    fnExists := fun _ => false
    query := fun b => if some (5 : ℚ) ∈ b then [⟨5, 7⟩] else [] }

/-- Witness for C2 at `ids = ["5"]` with an outer transaction active. -/
theorem fetch_no_create_in_tx_witness :
    Event.createFn ∉ [Event.onRequest, Event.probe, Event.rawQuery]
    ∧ [Event.onRequest, Event.probe, Event.rawQuery].count Event.rawQuery
        = ((chunk MAX_FN_ARGUMENTS (uniqIdsOf [JsVal.str "5"])).filter
            (fun b => !wEnvTx.fnExists b)).length :=
  fetch_no_create_in_tx false wEnvTx [JsVal.str "5"]
    [Event.onRequest, Event.probe, Event.rawQuery] [⟨5, 7⟩] rfl rfl

end EntityBuilder

namespace EntityBuilder

/-- C5: a fresh transaction is opened iff more than `MAX_FN_ARGUMENTS`
(99) distinct parsed ids were requested and no outer transaction was
active; with at most 99 distinct ids or an active outer transaction no
transaction is opened; `onRequset` is invoked exactly
`⌈N / 99⌉ = (N + 98) / 99` times — once per batch — and every batch has at
most 99 ids. -/
theorem fetch_batching_transaction (d : Bool) (env : Env) (ids : List JsVal)
    (evs : List Event) (rows : List DbRow)
    (hok : fetchEntities d env ids = Except.ok (evs, rows)) :
    (MAX_FN_ARGUMENTS < (uniqIdsOf ids).length →
        ((Event.beginTx ∈ evs) ↔ env.txActive = false))
    ∧ ((uniqIdsOf ids).length ≤ MAX_FN_ARGUMENTS ∨ env.txActive = true →
        Event.beginTx ∉ evs)
    ∧ evs.count Event.onRequest
        = ((uniqIdsOf ids).length + MAX_FN_ARGUMENTS - 1) / MAX_FN_ARGUMENTS
    ∧ (∀ b ∈ chunk MAX_FN_ARGUMENTS (uniqIdsOf ids), b.length ≤ MAX_FN_ARGUMENTS) := by
  obtain ⟨hevs, -⟩ := fetchEntities_ok_spec d env ids evs rows hok
  rw [fetchNodes_events] at hevs
  subst hevs
  have hnotin : Event.beginTx ∉
      ((chunk MAX_FN_ARGUMENTS (uniqIdsOf ids)).map
        (fun b => (execBatch env (txNowOf env ids) b).1)).flatten := by
    intro hmem
    rw [List.mem_flatten] at hmem
    obtain ⟨l, hl, hc⟩ := hmem
    rw [List.mem_map] at hl
    obtain ⟨b, -, rfl⟩ := hl
    exact (count_in_execBatch_events env (txNowOf env ids) b).2.2.1 hc
  have hmem_iff : (Event.beginTx ∈
      (if openTxOf env ids then [Event.beginTx] else [])
        ++ ((chunk MAX_FN_ARGUMENTS (uniqIdsOf ids)).map
          (fun b => (execBatch env (txNowOf env ids) b).1)).flatten)
      ↔ openTxOf env ids = true := by
    rw [List.mem_append]
    by_cases ho : openTxOf env ids <;> simp [ho, hnotin]
  refine ⟨?_, ?_, ?_, ?_⟩
  · intro hN
    rw [hmem_iff]
    unfold openTxOf
    rw [decide_eq_true hN]
    cases h : env.txActive <;> simp
  · intro hcase
    rw [hmem_iff]
    unfold openTxOf
    rcases hcase with hle | htx
    · rw [decide_eq_false (by omega)]
      simp
    · rw [htx]
      simp
  · rw [List.count_append]
    have h0 : (if openTxOf env ids then [Event.beginTx] else []).count Event.onRequest = 0 := by
      by_cases ho : openTxOf env ids <;> simp [ho]
    rw [h0, Nat.zero_add, List.count_flatten, List.map_map]
    have hmap : ((chunk MAX_FN_ARGUMENTS (uniqIdsOf ids)).map
        (List.count Event.onRequest ∘ fun b => (execBatch env (txNowOf env ids) b).1))
        = (chunk MAX_FN_ARGUMENTS (uniqIdsOf ids)).map (fun _ => 1) := by
      refine List.map_congr_left ?_
      intro b _
      simp only [Function.comp]
      exact (count_in_execBatch_events env (txNowOf env ids) b).1
    rw [hmap, sum_map_one, chunk_length MAX_FN_ARGUMENTS (by decide)]
  · intro b hb
    have := chunk_mem_length_le MAX_FN_ARGUMENTS (uniqIdsOf ids) b hb
    simpa [MAX_FN_ARGUMENTS] using this

/-- 100 distinct id strings `"0"`, …, `"99"`. -/
def wBigIds : List JsVal := (List.range 100).map (fun i => JsVal.str (Nat.repr i))

set_option maxRecDepth 100000 in
/-- Witness for C5: 100 distinct ids with no outer transaction open a
transaction and invoke `onRequset` ⌈100/99⌉ = 2 times. -/
theorem fetch_batching_transaction_witness :
    MAX_FN_ARGUMENTS < (uniqIdsOf wBigIds).length
    ∧ ((Event.beginTx ∈ [Event.beginTx, Event.onRequest, Event.probe,
          Event.onRequest, Event.probe]) ↔ wEnv.txActive = false)
    ∧ [Event.beginTx, Event.onRequest, Event.probe, Event.onRequest,
        Event.probe].count Event.onRequest
        = ((uniqIdsOf wBigIds).length + MAX_FN_ARGUMENTS - 1) / MAX_FN_ARGUMENTS :=
  ⟨by decide,
    (fetch_batching_transaction false wEnv wBigIds
      [Event.beginTx, Event.onRequest, Event.probe, Event.onRequest, Event.probe]
      [⟨5, 7⟩] rfl).1 (by decide),
    (fetch_batching_transaction false wEnv wBigIds
      [Event.beginTx, Event.onRequest, Event.probe, Event.onRequest, Event.probe]
      [⟨5, 7⟩] rfl).2.2.1⟩

end EntityBuilder

namespace EntityBuilder

/-- C6: in development mode, an ids list containing a non-string or empty
id makes `fetchEntities` throw (`Except.error`); the error is raised
before any batch executes, so no events (in particular no queries) are
recorded. -/
theorem fetch_dev_rejects_bad_ids (env : Env) (ids : List JsVal)
    (h : ∃ v ∈ ids, isBadId v = true) :
    fetchEntities true env ids = Except.error ()
    ∧ ∀ evs rows, fetchEntities true env ids ≠ Except.ok (evs, rows) := by
  obtain ⟨v, hv, hbad⟩ := h
  have hne : ids.isEmpty = false := by
    cases ids with
    | nil => simp at hv
    | cons a l => rfl
  have hany : ids.any isBadId = true := List.any_eq_true.mpr ⟨v, hv, hbad⟩
  have herr : fetchEntities true env ids = Except.error () := by
    unfold fetchEntities
    simp [hne, hany]
  exact ⟨herr, fun evs rows hok => by rw [herr] at hok; exact Except.noConfusion hok⟩

/-- Witness for C6: the empty-string id is rejected in development mode. -/
theorem fetch_dev_rejects_bad_ids_witness :
    fetchEntities true wEnv [JsVal.str "5", JsVal.str ""] = Except.error () :=
  (fetch_dev_rejects_bad_ids wEnv [JsVal.str "5", JsVal.str ""]
    ⟨JsVal.str "", by simp, rfl⟩).1

theorem filter_key_eq_length_le_one {β γ : Type} [DecidableEq γ] (f : β → γ)
    (o : Option γ) :
    ∀ l : List β, (l.map f).Nodup →
      (l.filter (fun r => decide (o = some (f r)))).length ≤ 1 := by
  intro l
  induction l with
  | nil => simp
  | cons x xs ih =>
    intro h
    rw [List.map_cons, List.nodup_cons] at h
    obtain ⟨hx, hxs⟩ := h
    by_cases ho : o = some (f x)
    · rw [List.filter_cons_of_pos (by simpa using ho)]
      have hempty : xs.filter (fun r => decide (o = some (f r))) = [] := by
        rw [List.filter_eq_nil_iff]
        intro r hr hdec
        rw [decide_eq_true_eq] at hdec
        rw [ho] at hdec
        have : f x = f r := by injection hdec
        exact hx (this ▸ List.mem_map_of_mem f hr)
      simp [hempty]
    · rw [List.filter_cons_of_neg (by simpa using ho)]
      exact ih hxs

/-- C10: ids are converted with `parseFloat` before deduplication and
querying: `"5"`, `"5.0"` and `"5abc"` all parse to the number 5; every
returned row's id is the `parseFloat` image of some input id (a number,
not the original string); and two input strings with equal `parseFloat`
values select the same rows — at most one row between them. -/
theorem fetch_parsefloat_semantics (d : Bool) (env : Env) (ids : List JsVal)
    (evs : List Event) (rows : List DbRow) (s1 s2 : String)
    (hq1 : ∀ b, ∀ r ∈ env.query b, some r.id ∈ b)
    (hq2 : ∀ b, ((env.query b).map DbRow.id).Nodup)
    (hok : fetchEntities d env ids = Except.ok (evs, rows))
    (heq : parseFloat s1 = parseFloat s2) :
    parseFloat "5" = some 5
    ∧ parseFloat "5.0" = some 5
    ∧ parseFloat "5abc" = some 5
    ∧ (∀ r ∈ rows, ∃ v ∈ ids, parseId v = some r.id)
    ∧ (rows.filter (fun r => decide (parseFloat s1 = some r.id))).length ≤ 1
    ∧ (rows.filter (fun r => decide (parseFloat s2 = some r.id)))
        = (rows.filter (fun r => decide (parseFloat s1 = some r.id))) := by
  obtain ⟨-, hrows⟩ := fetchEntities_ok_spec d env ids evs rows hok
  have hperm : List.Perm rows (fetchNodes env (txNowOf env ids) (uniqIdsOf ids)).2 := by
    rw [hrows]
    exact sortByKey_perm _ _
  have hnodup : (rows.map DbRow.id).Nodup := by
    refine ((hperm.map DbRow.id).nodup_iff).mpr ?_
    exact fetchNodes_rows_id_nodup env _ _ (nodup_uniq _) hq1 hq2
  refine ⟨by decide, by decide, by decide, ?_, ?_, by rw [heq]⟩
  · intro r hr
    have hrR := hperm.mem_iff.mp hr
    have h1 := fetchNodes_rows_mem env _ _ hq1 r hrR
    have h2 : some r.id ∈ numericIdsOf ids := mem_uniq.mp h1
    rw [numericIdsOf, List.mem_map] at h2
    obtain ⟨v, hv, hpv⟩ := h2
    exact ⟨v, hv, hpv⟩
  · exact filter_key_eq_length_le_one DbRow.id (parseFloat s1) rows hnodup

/-- Witness for C10 at `ids = ["5", "5.0"]`: the two strings parse to the
same number and yield a single row. -/
theorem fetch_parsefloat_semantics_witness :
    parseFloat "5" = some 5
    ∧ parseFloat "5.0" = some 5
    ∧ parseFloat "5abc" = some 5
    ∧ (∀ r ∈ [(⟨5, 7⟩ : DbRow)], ∃ v ∈ [JsVal.str "5", JsVal.str "5.0"],
        parseId v = some r.id)
    ∧ ([(⟨5, 7⟩ : DbRow)].filter
        (fun r => decide (parseFloat "5" = some r.id))).length ≤ 1
    ∧ ([(⟨5, 7⟩ : DbRow)].filter (fun r => decide (parseFloat "5.0" = some r.id)))
        = ([(⟨5, 7⟩ : DbRow)].filter (fun r => decide (parseFloat "5" = some r.id))) :=
  fetch_parsefloat_semantics false wEnv [JsVal.str "5", JsVal.str "5.0"]
    [Event.onRequest, Event.probe] [⟨5, 7⟩] "5" "5.0" wEnv_hq1 wEnv_hq2 rfl (by decide)

end EntityBuilder

/-! ## The hydrator: `hydrateResults`

`entity_builder.ts:496-558`.  Returned rows are JSON trees (`JVal`);
JavaScript objects are association lists of fields (in JavaScript an
object cannot hold a key twice, so theorems about deletions carry a
`Nodup` hypothesis on the keys).  Relation metadata resolved through
`findRelation` / `getIdColumn` / `getIdPropertyName` /
`findBacklinkKeyFromJunction` is precomputed on each child node
(`ChildMeta`), exactly as `hydrateResults` does in its `childNodes`
prologue.  The driver's `prepareHydratedValue` is an abstract `hook`. -/

namespace EntityBuilder

/-- A JSON value as returned by `row_to_json` / `json_agg`. -/
inductive JVal where
  | null
  | num (q : ℚ)
  | bool (b : Bool)
  | str (s : String)
  | arr (elems : List JVal)
  | obj (fields : List (String × JVal))

/-- Property read (`entity[k]`): first matching field, `none` = absent. -/
def lookupField : List (String × JVal) → String → Option JVal
  | [], _ => none
  | (k', v) :: rest, k => if k' = k then some v else lookupField rest k

/-- Property write (`entity[k] = v`): replace in place, append if new. -/
def setField : List (String × JVal) → String → JVal → List (String × JVal)
  | [], k, v => [(k, v)]
  | (k', v') :: rest, k, v =>
      if k' = k then (k, v) :: rest else (k', v') :: setField rest k v

/-- Property delete (`delete entity[k]`). -/
def eraseField : List (String × JVal) → String → List (String × JVal)
  | [], _ => []
  | (k', v') :: rest, k => if k' = k then rest else (k', v') :: eraseField rest k

/-- Node kind of a query-tree child (`QueryIdNode` / `QueryDataNode`). -/
inductive NodeKind where
  | ids
  | data
deriving DecidableEq, Repr

/-- The per-child record `hydrateResults` precomputes
(`entity_builder.ts:497-508`): `toOne = relation.isOneToOne ||
relation.isManyToOne`; `idColumn = getIdColumn(childNode.meta)`;
`propertyName = relation.propertyName`;
`idPropertyName = getIdPropertyName(node.meta, relation.propertyName)`;
`ownKeyName = findBacklinkKeyFromJunction(relation, childNode.meta)`
(meaningful only for many-to-many relations). -/
structure ChildMeta where
  kind : NodeKind
  toOne : Bool
  isManyToMany : Bool
  idColumn : String
  propertyName : String
  idPropertyName : String
  ownKeyName : String
deriving DecidableEq, Repr

/-- A query-tree node as consumed by the hydrator: its own (non-relation)
column property names and its children with their metadata. -/
inductive HNode where
  | mk (ownColumns : List String) (children : List (ChildMeta × HNode))

def HNode.ownColumns : HNode → List String
  | .mk o _ => o

def HNode.children : HNode → List (ChildMeta × HNode)
  | .mk _ c => c

/-- `isNotNull` from `check_utils` applied to a JSON element. -/
def notNullJ : JVal → Bool
  | .null => false
  | _ => true

/-- Numeric value of a JSON number (the sort comparators `(a, b) => a - b`
act on numbers; other values cannot occur there). -/
def numKey : JVal → ℚ
  | .num q => q
  | _ => 0

/-- `(value || [])` for an array-valued property: `null`, absence and
non-arrays give the empty array. -/
def arrElems : Option JVal → List JVal
  | some (JVal.arr l) => l
  | _ => []

/-- `.sort((a, b) => a - b)` — ascending numeric sort. -/
def sortIdsAsc (l : List JVal) : List JVal :=
  List.insertionSort (fun a b => numKey a ≤ numKey b) l

/-- `a[idColumn]` as a sort key of a child row. -/
def rowIdKey (idCol : String) (v : JVal) : ℚ :=
  match v with
  | JVal.obj fs => numKey ((lookupField fs idCol).getD JVal.null)
  | _ => 0

/-- `.sort((a, b) => a[idColumn] - b[idColumn])` — ascending sort of child
rows by primary-key column. -/
def sortRowsAsc (idCol : String) (l : List JVal) : List JVal :=
  List.insertionSort (fun a b => rowIdKey idCol a ≤ rowIdKey idCol b) l

/-- The driver's `prepareHydratedValue`, keyed by the column name; takes
the present value (or `none` when the property is absent). -/
def Hook : Type := String → Option JVal → JVal

/-- Value-column pass (`entity_builder.ts:511-516`): each own column is
replaced by the driver hook's output. -/
def hydrateValueCols (hook : Hook) (cols : List String)
    (fs : List (String × JVal)) : List (String × JVal) :=
  cols.foldl (fun acc col => setField acc col (hook col (lookupField acc col))) fs

/-- Id-children pass body (`entity_builder.ts:519-535`): to-one wipes a
null id property; to-many replaces the property by the non-null ids sorted
ascending and, for many-to-many, deletes the junction helper key. -/
def hydrateIdChild (fs : List (String × JVal)) (c : ChildMeta) :
    List (String × JVal) :=
  if c.toOne then
    match lookupField fs c.idPropertyName with
    | some JVal.null => eraseField fs c.idPropertyName
    | _ => fs
  else
    let sorted := JVal.arr
      (sortIdsAsc ((arrElems (lookupField fs c.idPropertyName)).filter notNullJ))
    let fs2 := setField fs c.idPropertyName sorted
    if c.isManyToMany then eraseField fs2 c.ownKeyName else fs2

mutual

/-- Hydration of one entity (`entity_builder.ts:510-557`, the body of the
`entities.forEach`): the value-column pass, then the id-children pass,
then the data-children pass.  A non-object value is returned unchanged (in
JavaScript, property writes on such values are silent no-ops). -/
def hydrateEntity (hook : Hook) : HNode → JVal → JVal
  | HNode.mk own children, JVal.obj fs =>
      JVal.obj (hydrateDataChildren hook children
        (((children.map Prod.fst).filter
            (fun c => c.kind == NodeKind.ids)).foldl hydrateIdChild
          (hydrateValueCols hook own fs)))
  | _, v => v

/-- Data-children pass (`entity_builder.ts:538-556`), iterating the
children in order and skipping id children: to-one deletes a null
relation value and recurses otherwise; to-many sorts by the child's
primary-key column, recurses into each element and, for many-to-many,
deletes the junction helper key. -/
def hydrateDataChildren (hook : Hook) :
    List (ChildMeta × HNode) → List (String × JVal) → List (String × JVal)
  | [], fs => fs
  | (c, child) :: rest, fs =>
      hydrateDataChildren hook rest
        (if c.kind == NodeKind.data then
          if c.toOne then
            match lookupField fs c.propertyName with
            | some JVal.null => eraseField fs c.propertyName
            | some v => setField fs c.propertyName (hydrateEntity hook child v)
            | none => fs
          else
            let hydrated := (sortRowsAsc c.idColumn
                (arrElems (lookupField fs c.propertyName))).map
              (hydrateEntity hook child)
            let fs2 := setField fs c.propertyName (JVal.arr hydrated)
            if c.isManyToMany then eraseField fs2 c.ownKeyName else fs2
        else fs)

end

/-- Top level `hydrateResults`: hydrate every returned entity. -/
def hydrateResults (hook : Hook) (node : HNode) (entities : List JVal) :
    List JVal :=
  entities.map (hydrateEntity hook node)

end EntityBuilder

namespace EntityBuilder

theorem lookup_setField_self (fs : List (String × JVal)) (k : String) (v : JVal) :
    lookupField (setField fs k v) k = some v := by
  induction fs with
  | nil => simp [setField, lookupField]
  | cons p rest ih =>
    obtain ⟨k', v'⟩ := p
    by_cases h : k' = k
    · simp [setField, h, lookupField]
    · simp [setField, h, lookupField, ih]

theorem lookup_setField_ne (fs : List (String × JVal)) (k k' : String) (v : JVal)
    (h : k ≠ k') : lookupField (setField fs k' v) k = lookupField fs k := by
  have h' : ¬ (k' = k) := fun he => h he.symm
  induction fs with
  | nil => simp [setField, lookupField, h']
  | cons p rest ih =>
    obtain ⟨k0, v0⟩ := p
    by_cases h0 : k0 = k'
    · rw [setField, if_pos h0, lookupField, if_neg h', lookupField,
        if_neg (fun hk => h' (h0.symm.trans hk))]
    · rw [setField, if_neg h0, lookupField, lookupField]
      by_cases h1 : k0 = k
      · rw [if_pos h1, if_pos h1]
      · rw [if_neg h1, if_neg h1, ih]

theorem lookup_eraseField_ne (fs : List (String × JVal)) (k k' : String)
    (h : k ≠ k') : lookupField (eraseField fs k') k = lookupField fs k := by
  have h' : ¬ (k' = k) := fun he => h he.symm
  induction fs with
  | nil => simp [eraseField]
  | cons p rest ih =>
    obtain ⟨k0, v0⟩ := p
    by_cases h0 : k0 = k'
    · rw [eraseField, if_pos h0, lookupField,
        if_neg (fun hk => h' (h0.symm.trans hk))]
    · rw [eraseField, if_neg h0, lookupField, lookupField]
      by_cases h1 : k0 = k
      · rw [if_pos h1, if_pos h1]
      · rw [if_neg h1, if_neg h1, ih]

theorem lookup_eq_none_of_key_not_mem (fs : List (String × JVal)) (k : String)
    (h : k ∉ fs.map Prod.fst) : lookupField fs k = none := by
  induction fs with
  | nil => rfl
  | cons p rest ih =>
    obtain ⟨k0, v0⟩ := p
    simp only [List.map_cons, List.mem_cons] at h
    push_neg at h
    rw [lookupField, if_neg (fun he => h.1 he.symm), ih h.2]

theorem lookup_eraseField_self (fs : List (String × JVal)) (k : String)
    (h : (fs.map Prod.fst).Nodup) : lookupField (eraseField fs k) k = none := by
  induction fs with
  | nil => rfl
  | cons p rest ih =>
    obtain ⟨k0, v0⟩ := p
    rw [List.map_cons, List.nodup_cons] at h
    by_cases h0 : k0 = k
    · subst h0
      rw [eraseField, if_pos rfl]
      exact lookup_eq_none_of_key_not_mem rest k0 h.1
    · rw [eraseField, if_neg h0, lookupField, if_neg h0]
      exact ih h.2

theorem keys_setField (fs : List (String × JVal)) (k : String) (v : JVal) :
    (setField fs k v).map Prod.fst
      = if k ∈ fs.map Prod.fst then fs.map Prod.fst else fs.map Prod.fst ++ [k] := by
  induction fs with
  | nil => simp [setField]
  | cons p rest ih =>
    obtain ⟨k0, v0⟩ := p
    by_cases h0 : k0 = k
    · subst h0
      simp [setField]
    · rw [setField, if_neg h0]
      simp only [List.map_cons, List.mem_cons]
      rw [ih]
      have hne : ¬ (k = k0) := fun he => h0 he.symm
      by_cases hmem : k ∈ rest.map Prod.fst
      · rw [if_pos hmem, if_pos (Or.inr hmem)]
      · rw [if_neg hmem, if_neg (by simp [hne, hmem])]
        simp

theorem nodupKeys_setField (fs : List (String × JVal)) (k : String) (v : JVal)
    (h : (fs.map Prod.fst).Nodup) : ((setField fs k v).map Prod.fst).Nodup := by
  rw [keys_setField]
  by_cases hmem : k ∈ fs.map Prod.fst
  · rwa [if_pos hmem]
  · rw [if_neg hmem]
    rw [List.nodup_append]
    exact ⟨h, List.nodup_singleton k, by simpa using hmem⟩

theorem keys_eraseField_sublist (fs : List (String × JVal)) (k : String) :
    List.Sublist ((eraseField fs k).map Prod.fst) (fs.map Prod.fst) := by
  induction fs with
  | nil => simp [eraseField]
  | cons p rest ih =>
    obtain ⟨k0, v0⟩ := p
    by_cases h0 : k0 = k
    · rw [eraseField, if_pos h0]
      exact (List.sublist_cons_self k0 (rest.map Prod.fst))
    · rw [eraseField, if_neg h0]
      simpa using ih.cons₂ k0

theorem nodupKeys_eraseField (fs : List (String × JVal)) (k : String)
    (h : (fs.map Prod.fst).Nodup) : ((eraseField fs k).map Prod.fst).Nodup :=
  h.sublist (keys_eraseField_sublist fs k)

end EntityBuilder

namespace EntityBuilder

/-- All property keys a child's hydration steps may write or delete. -/
def touchedKeys (c : ChildMeta) : List String :=
  c.idPropertyName :: c.propertyName ::
    (if c.isManyToMany then [c.ownKeyName] else [])

theorem lookup_hydrateValueCols_frame (hook : Hook) (k : String) :
    ∀ (cols : List String) (fs : List (String × JVal)), k ∉ cols →
      lookupField (hydrateValueCols hook cols fs) k = lookupField fs k := by
  intro cols
  induction cols with
  | nil => intro fs _; rfl
  | cons col rest ih =>
    intro fs hk
    rw [List.mem_cons] at hk
    push_neg at hk
    show lookupField (hydrateValueCols hook rest _) k = _
    rw [ih _ hk.2, lookup_setField_ne _ _ _ _ hk.1]

theorem lookup_hydrateValueCols_num (hook : Hook) (k : String) (q : ℚ)
    (hhook : ∀ s v, hook s (some (JVal.num v)) = JVal.num v) :
    ∀ (cols : List String) (fs : List (String × JVal)),
      lookupField fs k = some (JVal.num q) →
      lookupField (hydrateValueCols hook cols fs) k = some (JVal.num q) := by
  intro cols
  induction cols with
  | nil => intro fs h; exact h
  | cons col rest ih =>
    intro fs h
    show lookupField (hydrateValueCols hook rest _) k = _
    refine ih _ ?_
    show lookupField (setField fs col (hook col (lookupField fs col))) k
      = some (JVal.num q)
    by_cases hc : k = col
    · subst hc
      rw [h, hhook, lookup_setField_self]
    · rw [lookup_setField_ne _ _ _ _ hc, h]

theorem nodupKeys_hydrateValueCols (hook : Hook) :
    ∀ (cols : List String) (fs : List (String × JVal)),
      (fs.map Prod.fst).Nodup → ((hydrateValueCols hook cols fs).map Prod.fst).Nodup := by
  intro cols
  induction cols with
  | nil => intro fs h; exact h
  | cons col rest ih =>
    intro fs h
    exact ih _ (nodupKeys_setField _ _ _ h)

theorem lookup_hydrateIdChild_frame (fs : List (String × JVal)) (c : ChildMeta)
    (k : String) (h1 : k ≠ c.idPropertyName)
    (h2 : c.isManyToMany = true → k ≠ c.ownKeyName) :
    lookupField (hydrateIdChild fs c) k = lookupField fs k := by
  unfold hydrateIdChild
  by_cases ht : c.toOne
  · rw [if_pos ht]
    match hv : lookupField fs c.idPropertyName with
    | some JVal.null => exact lookup_eraseField_ne _ _ _ h1
    | some (JVal.num _) => rfl
    | some (JVal.bool _) => rfl
    | some (JVal.str _) => rfl
    | some (JVal.arr _) => rfl
    | some (JVal.obj _) => rfl
    | none => rfl
  · rw [if_neg ht]
    by_cases hm : c.isManyToMany
    · rw [if_pos hm, lookup_eraseField_ne _ _ _ (h2 hm),
        lookup_setField_ne _ _ _ _ h1]
    · rw [if_neg hm, lookup_setField_ne _ _ _ _ h1]

theorem nodupKeys_hydrateIdChild (fs : List (String × JVal)) (c : ChildMeta)
    (h : (fs.map Prod.fst).Nodup) :
    ((hydrateIdChild fs c).map Prod.fst).Nodup := by
  unfold hydrateIdChild
  by_cases ht : c.toOne
  · rw [if_pos ht]
    match hv : lookupField fs c.idPropertyName with
    | some JVal.null => exact nodupKeys_eraseField _ _ h
    | some (JVal.num _) => exact h
    | some (JVal.bool _) => exact h
    | some (JVal.str _) => exact h
    | some (JVal.arr _) => exact h
    | some (JVal.obj _) => exact h
    | none => exact h
  · rw [if_neg ht]
    by_cases hm : c.isManyToMany
    · rw [if_pos hm]
      exact nodupKeys_eraseField _ _ (nodupKeys_setField _ _ _ h)
    · rw [if_neg hm]
      exact nodupKeys_setField _ _ _ h

theorem lookup_foldIdChildren_frame (k : String) :
    ∀ (cs : List ChildMeta) (fs : List (String × JVal)),
      (∀ c ∈ cs, k ≠ c.idPropertyName ∧ (c.isManyToMany = true → k ≠ c.ownKeyName)) →
      lookupField (cs.foldl hydrateIdChild fs) k = lookupField fs k := by
  intro cs
  induction cs with
  | nil => intro fs _; rfl
  | cons c rest ih =>
    intro fs h
    rw [List.foldl_cons, ih _ (fun c' hc' => h c' (List.mem_cons_of_mem c hc')),
      lookup_hydrateIdChild_frame _ _ _ (h c (List.mem_cons_self c rest)).1
        (h c (List.mem_cons_self c rest)).2]

theorem nodupKeys_foldIdChildren :
    ∀ (cs : List ChildMeta) (fs : List (String × JVal)),
      (fs.map Prod.fst).Nodup →
      ((cs.foldl hydrateIdChild fs).map Prod.fst).Nodup := by
  intro cs
  induction cs with
  | nil => intro fs h; exact h
  | cons c rest ih =>
    intro fs h
    exact ih _ (nodupKeys_hydrateIdChild _ _ h)

end EntityBuilder

namespace EntityBuilder

/-- One data-child step of `hydrateDataChildren` (exposed for reasoning). -/
def hydrateDataStep (hook : Hook) (c : ChildMeta) (child : HNode)
    (fs : List (String × JVal)) : List (String × JVal) :=
  if c.kind == NodeKind.data then
    if c.toOne then
      match lookupField fs c.propertyName with
      | some JVal.null => eraseField fs c.propertyName
      | some v => setField fs c.propertyName (hydrateEntity hook child v)
      | none => fs
    else
      let hydrated := (sortRowsAsc c.idColumn
          (arrElems (lookupField fs c.propertyName))).map
        (hydrateEntity hook child)
      let fs2 := setField fs c.propertyName (JVal.arr hydrated)
      if c.isManyToMany then eraseField fs2 c.ownKeyName else fs2
  else fs

theorem hydrateDataChildren_eq_steps (hook : Hook) :
    ∀ (cs : List (ChildMeta × HNode)) (fs : List (String × JVal)),
      hydrateDataChildren hook cs fs
        = cs.foldl (fun acc p => hydrateDataStep hook p.1 p.2 acc) fs := by
  intro cs
  induction cs with
  | nil => intro fs; rfl
  | cons p rest ih =>
    intro fs
    obtain ⟨c, child⟩ := p
    rw [List.foldl_cons, hydrateDataChildren, ih]
    rfl

theorem lookup_hydrateDataStep_frame (hook : Hook) (c : ChildMeta)
    (child : HNode) (fs : List (String × JVal)) (k : String)
    (h : c.kind = NodeKind.data →
      k ≠ c.propertyName ∧ (c.isManyToMany = true → k ≠ c.ownKeyName)) :
    lookupField (hydrateDataStep hook c child fs) k = lookupField fs k := by
  unfold hydrateDataStep
  by_cases hkind : c.kind == NodeKind.data
  · rw [if_pos hkind]
    obtain ⟨h1, h2⟩ := h (by simpa using hkind)
    by_cases ht : c.toOne
    · rw [if_pos ht]
      match hv : lookupField fs c.propertyName with
      | some JVal.null => exact lookup_eraseField_ne _ _ _ h1
      | some (JVal.num _) => exact lookup_setField_ne _ _ _ _ h1
      | some (JVal.bool _) => exact lookup_setField_ne _ _ _ _ h1
      | some (JVal.str _) => exact lookup_setField_ne _ _ _ _ h1
      | some (JVal.arr _) => exact lookup_setField_ne _ _ _ _ h1
      | some (JVal.obj _) => exact lookup_setField_ne _ _ _ _ h1
      | none => rfl
    · rw [if_neg ht]
      by_cases hm : c.isManyToMany
      · rw [if_pos hm]
        rw [lookup_eraseField_ne _ _ _ (h2 hm), lookup_setField_ne _ _ _ _ h1]
      · rw [if_neg hm]
        exact lookup_setField_ne _ _ _ _ h1
  · rw [if_neg hkind]

theorem nodupKeys_hydrateDataStep (hook : Hook) (c : ChildMeta) (child : HNode)
    (fs : List (String × JVal)) (h : (fs.map Prod.fst).Nodup) :
    ((hydrateDataStep hook c child fs).map Prod.fst).Nodup := by
  unfold hydrateDataStep
  by_cases hkind : c.kind == NodeKind.data
  · rw [if_pos hkind]
    by_cases ht : c.toOne
    · rw [if_pos ht]
      match hv : lookupField fs c.propertyName with
      | some JVal.null => exact nodupKeys_eraseField _ _ h
      | some (JVal.num _) => exact nodupKeys_setField _ _ _ h
      | some (JVal.bool _) => exact nodupKeys_setField _ _ _ h
      | some (JVal.str _) => exact nodupKeys_setField _ _ _ h
      | some (JVal.arr _) => exact nodupKeys_setField _ _ _ h
      | some (JVal.obj _) => exact nodupKeys_setField _ _ _ h
      | none => exact h
    · rw [if_neg ht]
      by_cases hm : c.isManyToMany
      · rw [if_pos hm]
        exact nodupKeys_eraseField _ _ (nodupKeys_setField _ _ _ h)
      · rw [if_neg hm]
        exact nodupKeys_setField _ _ _ h
  · rw [if_neg hkind]
    exact h

theorem lookup_foldDataChildren_frame (hook : Hook) (k : String) :
    ∀ (cs : List (ChildMeta × HNode)) (fs : List (String × JVal)),
      (∀ p ∈ cs, p.1.kind = NodeKind.data →
        k ≠ p.1.propertyName ∧ (p.1.isManyToMany = true → k ≠ p.1.ownKeyName)) →
      lookupField (hydrateDataChildren hook cs fs) k = lookupField fs k := by
  intro cs
  induction cs with
  | nil => intro fs _; rfl
  | cons p rest ih =>
    intro fs h
    obtain ⟨c, child⟩ := p
    rw [hydrateDataChildren_eq_steps, List.foldl_cons,
      ← hydrateDataChildren_eq_steps, ih _ (fun p' hp' => h p' (List.mem_cons_of_mem _ hp')),
      lookup_hydrateDataStep_frame hook c child fs k (h (c, child) (List.mem_cons_self _ _))]

theorem nodupKeys_hydrateDataChildren (hook : Hook) :
    ∀ (cs : List (ChildMeta × HNode)) (fs : List (String × JVal)),
      (fs.map Prod.fst).Nodup →
      ((hydrateDataChildren hook cs fs).map Prod.fst).Nodup := by
  intro cs
  induction cs with
  | nil => intro fs h; exact h
  | cons p rest ih =>
    intro fs h
    obtain ⟨c, child⟩ := p
    rw [hydrateDataChildren_eq_steps, List.foldl_cons, ← hydrateDataChildren_eq_steps]
    exact ih _ (nodupKeys_hydrateDataStep hook c child fs h)

end EntityBuilder

namespace EntityBuilder

/-- Fields of a JSON object (rows are objects). -/
def objFields : JVal → List (String × JVal)
  | .obj fs => fs
  | _ => []

/-- What the id-children pass leaves in the id property, as a function of
the property's incoming value (`entity_builder.ts:519-534`). -/
def idChildResult (c : ChildMeta) (v : Option JVal) : Option JVal :=
  if c.toOne then
    match v with
    | some JVal.null => none
    | _ => v
  else
    some (JVal.arr (sortIdsAsc ((arrElems v).filter notNullJ)))

theorem hydrateEntity_obj (hook : Hook) (own : List String)
    (children : List (ChildMeta × HNode)) (fs : List (String × JVal)) :
    hydrateEntity hook (HNode.mk own children) (JVal.obj fs)
      = JVal.obj (hydrateDataChildren hook children
          (((children.map Prod.fst).filter
              (fun c => c.kind == NodeKind.ids)).foldl hydrateIdChild
            (hydrateValueCols hook own fs))) := rfl

theorem lookup_hydrateIdChild_self (fs : List (String × JVal)) (c : ChildMeta)
    (hkeys : (fs.map Prod.fst).Nodup)
    (hm2m : c.isManyToMany = true → c.ownKeyName ≠ c.idPropertyName) :
    lookupField (hydrateIdChild fs c) c.idPropertyName
      = idChildResult c (lookupField fs c.idPropertyName) := by
  unfold hydrateIdChild idChildResult
  by_cases ht : c.toOne
  · rw [if_pos ht, if_pos ht]
    match hv : lookupField fs c.idPropertyName with
    | some JVal.null => exact lookup_eraseField_self _ _ hkeys
    | some (JVal.num _) => exact hv
    | some (JVal.bool _) => exact hv
    | some (JVal.str _) => exact hv
    | some (JVal.arr _) => exact hv
    | some (JVal.obj _) => exact hv
    | none => exact hv
  · rw [if_neg ht, if_neg ht]
    by_cases hm : c.isManyToMany
    · rw [if_pos hm, lookup_eraseField_ne _ _ _ (fun he => hm2m hm he.symm),
        lookup_setField_self]
    · rw [if_neg hm, lookup_setField_self]

/-- Central lemma for the id-children claims: in a hydrated entity the id
property of an ids child holds exactly `idChildResult` of its original
value, provided the node's own columns and the other children do not
write that property. -/
theorem lookup_hydrateEntity_idChild (hook : Hook) (own : List String)
    (pre post : List (ChildMeta × HNode)) (c : ChildMeta) (child : HNode)
    (fs : List (String × JVal))
    (hkind : c.kind = NodeKind.ids)
    (hkeys : (fs.map Prod.fst).Nodup)
    (hown : c.idPropertyName ∉ own)
    (hframe : ∀ p ∈ pre ++ post, c.idPropertyName ∉ touchedKeys p.1)
    (hm2m : c.isManyToMany = true → c.ownKeyName ≠ c.idPropertyName) :
    lookupField (objFields (hydrateEntity hook
        (HNode.mk own (pre ++ (c, child) :: post)) (JVal.obj fs)))
      c.idPropertyName
      = idChildResult c (lookupField fs c.idPropertyName) := by
  rw [hydrateEntity_obj]
  show lookupField (hydrateDataChildren hook (pre ++ (c, child) :: post) _)
    c.idPropertyName = _
  have hframe' : ∀ p ∈ pre ++ post,
      c.idPropertyName ≠ p.1.idPropertyName
      ∧ c.idPropertyName ≠ p.1.propertyName
      ∧ (p.1.isManyToMany = true → c.idPropertyName ≠ p.1.ownKeyName) := by
    intro p hp
    have h := hframe p hp
    unfold touchedKeys at h
    simp only [List.mem_cons] at h
    push_neg at h
    refine ⟨h.1, h.2.1, fun hm hk => ?_⟩
    have := h.2.2
    rw [if_pos hm] at this
    simp at this
    exact this hk
  -- the data pass does not touch the property (the child itself is an ids
  -- child and is skipped there)
  rw [lookup_foldDataChildren_frame hook c.idPropertyName _ _ ?hdata]
  case hdata =>
    intro p hp hpkind
    rcases List.mem_append.mp hp with hp1 | hp2
    · obtain ⟨-, h2, h3⟩ := hframe' p (List.mem_append.mpr (Or.inl hp1))
      exact ⟨h2, h3⟩
    · rcases List.mem_cons.mp hp2 with rfl | hp3
      · rw [hkind] at hpkind
        exact absurd hpkind (by simp)
      · obtain ⟨-, h2, h3⟩ := hframe' p (List.mem_append.mpr (Or.inr hp3))
        exact ⟨h2, h3⟩
  -- split the ids pass around the child
  have hsplit : ((pre ++ (c, child) :: post).map Prod.fst).filter
      (fun c' => c'.kind == NodeKind.ids)
      = ((pre.map Prod.fst).filter (fun c' => c'.kind == NodeKind.ids))
        ++ c :: ((post.map Prod.fst).filter (fun c' => c'.kind == NodeKind.ids)) := by
    rw [List.map_append, List.map_cons, List.filter_append, List.filter_cons_of_pos]
    simp [hkind]
  rw [hsplit, List.foldl_append, List.foldl_cons]
  have hpreframe : ∀ cm ∈ (pre.map Prod.fst).filter
      (fun c' => c'.kind == NodeKind.ids),
      c.idPropertyName ≠ cm.idPropertyName
      ∧ (cm.isManyToMany = true → c.idPropertyName ≠ cm.ownKeyName) := by
    intro cm hcm
    have hcm' := List.mem_of_mem_filter hcm
    rw [List.mem_map] at hcm'
    obtain ⟨p, hp, rfl⟩ := hcm'
    obtain ⟨h1, -, h3⟩ := hframe' p (List.mem_append.mpr (Or.inl hp))
    exact ⟨h1, h3⟩
  have hpostframe : ∀ cm ∈ (post.map Prod.fst).filter
      (fun c' => c'.kind == NodeKind.ids),
      c.idPropertyName ≠ cm.idPropertyName
      ∧ (cm.isManyToMany = true → c.idPropertyName ≠ cm.ownKeyName) := by
    intro cm hcm
    have hcm' := List.mem_of_mem_filter hcm
    rw [List.mem_map] at hcm'
    obtain ⟨p, hp, rfl⟩ := hcm'
    obtain ⟨h1, -, h3⟩ := hframe' p (List.mem_append.mpr (Or.inr hp))
    exact ⟨h1, h3⟩
  rw [lookup_foldIdChildren_frame _ _ _ hpostframe]
  have hkeysA : (((( pre.map Prod.fst).filter
      (fun c' => c'.kind == NodeKind.ids)).foldl hydrateIdChild
        (hydrateValueCols hook own fs)).map Prod.fst).Nodup :=
    nodupKeys_foldIdChildren _ _ (nodupKeys_hydrateValueCols hook own fs hkeys)
  rw [lookup_hydrateIdChild_self _ _ hkeysA hm2m,
    lookup_foldIdChildren_frame _ _ _ hpreframe,
    lookup_hydrateValueCols_frame hook _ own fs hown]

end EntityBuilder

namespace EntityBuilder

theorem sortIdsAsc_perm (l : List JVal) : List.Perm (sortIdsAsc l) l :=
  List.perm_insertionSort _ l

theorem sortIdsAsc_sorted (l : List JVal) :
    (sortIdsAsc l).Pairwise (fun a b => numKey a ≤ numKey b) := by
  haveI : IsTotal JVal (fun a b => numKey a ≤ numKey b) :=
    ⟨fun a b => le_total _ _⟩
  haveI : IsTrans JVal (fun a b => numKey a ≤ numKey b) :=
    ⟨fun a b c h1 h2 => le_trans h1 h2⟩
  exact List.sorted_insertionSort _ l

/-- Hook used in the hydrator witnesses: keep the present value. -/
def wHook : Hook := fun _ v => v.getD JVal.null

/-- C4: for an id child on a to-one relation, a `null` projected id (absent
related entity) is deleted from the row — the property is absent, not
null — while a numeric id value is kept unchanged.  The frame hypotheses
say that the id property is not also one of the node's own columns and is
not written by any other child, and that the entity's keys are unique (a
JavaScript object cannot repeat a key). -/
theorem hydrate_toOne_id_child (hook : Hook) (own : List String)
    (pre post : List (ChildMeta × HNode)) (c : ChildMeta) (child : HNode)
    (fs : List (String × JVal))
    (hkind : c.kind = NodeKind.ids) (htoone : c.toOne = true)
    (hnotm2m : c.isManyToMany = false)
    (hkeys : (fs.map Prod.fst).Nodup)
    (hown : c.idPropertyName ∉ own)
    (hframe : ∀ p ∈ pre ++ post, c.idPropertyName ∉ touchedKeys p.1) :
    (lookupField fs c.idPropertyName = some JVal.null →
      lookupField (objFields (hydrateEntity hook
          (HNode.mk own (pre ++ (c, child) :: post)) (JVal.obj fs)))
        c.idPropertyName = none)
    ∧ (∀ q : ℚ, lookupField fs c.idPropertyName = some (JVal.num q) →
      lookupField (objFields (hydrateEntity hook
          (HNode.mk own (pre ++ (c, child) :: post)) (JVal.obj fs)))
        c.idPropertyName = some (JVal.num q)) := by
  have hm2m : c.isManyToMany = true → c.ownKeyName ≠ c.idPropertyName := by
    intro hm
    rw [hnotm2m] at hm
    exact absurd hm (by simp)
  rw [lookup_hydrateEntity_idChild hook own pre post c child fs hkind hkeys
    hown hframe hm2m]
  unfold idChildResult
  rw [if_pos htoone]
  constructor
  · intro h
    rw [h]
  · intro q h
    rw [h]

/-- The to-one witness child: an ids child projecting `relId`. -/
def wToOneChild : ChildMeta :=
  { kind := NodeKind.ids, toOne := true, isManyToMany := false,
    idColumn := "id", propertyName := "rel", idPropertyName := "relId",
    ownKeyName := "jk" }

/-- Witness for C4: a null `relId` is deleted, a numeric one kept. -/
theorem hydrate_toOne_id_child_witness :
    lookupField (objFields (hydrateEntity wHook
        (HNode.mk ["x"] [(wToOneChild, HNode.mk [] [])])
        (JVal.obj [("x", JVal.num 1), ("relId", JVal.null)]))) "relId" = none
    ∧ lookupField (objFields (hydrateEntity wHook
        (HNode.mk ["x"] [(wToOneChild, HNode.mk [] [])])
        (JVal.obj [("x", JVal.num 1), ("relId", JVal.num 3)]))) "relId"
      = some (JVal.num 3) :=
  ⟨(hydrate_toOne_id_child wHook ["x"] [] [] wToOneChild (HNode.mk [] [])
      [("x", JVal.num 1), ("relId", JVal.null)] rfl rfl rfl (by decide)
      (by decide) (by simp)).1 rfl,
    (hydrate_toOne_id_child wHook ["x"] [] [] wToOneChild (HNode.mk [] [])
      [("x", JVal.num 1), ("relId", JVal.num 3)] rfl rfl rfl (by decide)
      (by decide) (by simp)).2 3 rfl⟩

end EntityBuilder

namespace EntityBuilder

/-- `true` iff the element can appear in a projected id array (`json_agg`
over an integer primary-key column yields numbers and NULLs). -/
def isNullOrNum : JVal → Bool
  | .null => true
  | .num _ => true
  | _ => false

/-- C3: for an id child on a to-many relation, the hydrated value of the
id property is exactly the incoming elements with nulls dropped, sorted
ascending — hence an array, sorted, free of nulls; a missing or null
incoming value becomes the empty array; and when the incoming elements
are numbers/nulls with distinct numeric values (as `json_agg` over a
primary-key column produces), the result is an array of distinct numeric
ids.  Frame hypotheses as in the to-one case. -/
theorem hydrate_toMany_id_child (hook : Hook) (own : List String)
    (pre post : List (ChildMeta × HNode)) (c : ChildMeta) (child : HNode)
    (fs : List (String × JVal))
    (hkind : c.kind = NodeKind.ids) (htomany : c.toOne = false)
    (hkeys : (fs.map Prod.fst).Nodup)
    (hown : c.idPropertyName ∉ own)
    (hframe : ∀ p ∈ pre ++ post, c.idPropertyName ∉ touchedKeys p.1)
    (hm2m : c.isManyToMany = true → c.ownKeyName ≠ c.idPropertyName) :
    lookupField (objFields (hydrateEntity hook
        (HNode.mk own (pre ++ (c, child) :: post)) (JVal.obj fs)))
      c.idPropertyName
      = some (JVal.arr (sortIdsAsc
          ((arrElems (lookupField fs c.idPropertyName)).filter notNullJ)))
    ∧ (sortIdsAsc ((arrElems (lookupField fs c.idPropertyName)).filter
        notNullJ)).Pairwise (fun a b => numKey a ≤ numKey b)
    ∧ (∀ e ∈ sortIdsAsc ((arrElems (lookupField fs c.idPropertyName)).filter
        notNullJ), notNullJ e = true)
    ∧ ((lookupField fs c.idPropertyName = none
        ∨ lookupField fs c.idPropertyName = some JVal.null) →
      sortIdsAsc ((arrElems (lookupField fs c.idPropertyName)).filter
        notNullJ) = [])
    ∧ ((arrElems (lookupField fs c.idPropertyName)).all isNullOrNum = true →
      ∀ e ∈ sortIdsAsc ((arrElems (lookupField fs c.idPropertyName)).filter
        notNullJ), ∃ q : ℚ, e = JVal.num q)
    ∧ ((((arrElems (lookupField fs c.idPropertyName)).filter
          notNullJ).map numKey).Nodup →
      ((sortIdsAsc ((arrElems (lookupField fs c.idPropertyName)).filter
          notNullJ)).map numKey).Nodup) := by
  refine ⟨?_, sortIdsAsc_sorted _, ?_, ?_, ?_, ?_⟩
  · rw [lookup_hydrateEntity_idChild hook own pre post c child fs hkind hkeys
      hown hframe hm2m]
    unfold idChildResult
    rw [if_neg (by rw [htomany]; exact Bool.false_ne_true)]
  · intro e he
    have := (sortIdsAsc_perm _).mem_iff.mp he
    exact List.of_mem_filter this
  · intro h
    rcases h with h | h <;> rw [h] <;> rfl
  · intro hall e he
    have hmem := (sortIdsAsc_perm _).mem_iff.mp he
    have hnn : notNullJ e = true := List.of_mem_filter hmem
    have hmem' := List.mem_of_mem_filter hmem
    have he' := List.all_eq_true.mp hall e hmem'
    match e, hnn, he' with
    | JVal.num q, _, _ => exact ⟨q, rfl⟩
  · intro hnd
    exact (((sortIdsAsc_perm _).map numKey).nodup_iff).mpr hnd

/-- The to-many witness child: a many-to-many ids child projecting
`relIds`, grouped through the junction helper key `jk`. -/
def wToManyChild : ChildMeta :=
  { kind := NodeKind.ids, toOne := false, isManyToMany := true,
    idColumn := "id", propertyName := "rel", idPropertyName := "relIds",
    ownKeyName := "jk" }

/-- Witness for C3: `[3, null, 1]` hydrates to `[1, 3]`. -/
theorem hydrate_toMany_id_child_witness :
    lookupField (objFields (hydrateEntity wHook
        (HNode.mk ["x"] [(wToManyChild, HNode.mk [] [])])
        (JVal.obj [("x", JVal.num 1),
          ("relIds", JVal.arr [JVal.num 3, JVal.null, JVal.num 1]),
          ("jk", JVal.num 9)]))) "relIds"
      = some (JVal.arr [JVal.num 1, JVal.num 3]) :=
  ((hydrate_toMany_id_child wHook ["x"] [] [] wToManyChild (HNode.mk [] [])
      [("x", JVal.num 1),
        ("relIds", JVal.arr [JVal.num 3, JVal.null, JVal.num 1]),
        ("jk", JVal.num 9)] rfl rfl (by decide) (by decide) (by simp)
      (fun _ => (by decide))).1).trans rfl

end EntityBuilder

namespace EntityBuilder

theorem sortRowsAsc_perm (idCol : String) (l : List JVal) :
    List.Perm (sortRowsAsc idCol l) l :=
  List.perm_insertionSort _ l

theorem sortRowsAsc_sorted (idCol : String) (l : List JVal) :
    (sortRowsAsc idCol l).Pairwise
      (fun a b => rowIdKey idCol a ≤ rowIdKey idCol b) := by
  haveI : IsTotal JVal (fun a b => rowIdKey idCol a ≤ rowIdKey idCol b) :=
    ⟨fun a b => le_total _ _⟩
  haveI : IsTrans JVal (fun a b => rowIdKey idCol a ≤ rowIdKey idCol b) :=
    ⟨fun a b c h1 h2 => le_trans h1 h2⟩
  exact List.sorted_insertionSort _ l

/-- Hydrating a child row preserves a numeric value under any key that the
row's own value-column pass can only feed through the hook (which is the
identity on numbers) and that no child of the row writes. -/
theorem lookup_hydrateEntity_num (hook : Hook) (child : HNode) (k : String)
    (q : ℚ) (fsr : List (String × JVal))
    (hhook : ∀ s v, hook s (some (JVal.num v)) = JVal.num v)
    (hchildframe : ∀ p ∈ child.children, k ∉ touchedKeys p.1)
    (hval : lookupField fsr k = some (JVal.num q)) :
    lookupField (objFields (hydrateEntity hook child (JVal.obj fsr))) k
      = some (JVal.num q) := by
  obtain ⟨own, children⟩ := child
  rw [hydrateEntity_obj]
  show lookupField (hydrateDataChildren hook children _) k = _
  have hframe' : ∀ p ∈ children,
      k ≠ p.1.idPropertyName ∧ k ≠ p.1.propertyName
      ∧ (p.1.isManyToMany = true → k ≠ p.1.ownKeyName) := by
    intro p hp
    have h := hchildframe p hp
    unfold touchedKeys at h
    simp only [List.mem_cons] at h
    push_neg at h
    refine ⟨h.1, h.2.1, fun hm hk => ?_⟩
    have h3 := h.2.2
    rw [if_pos hm] at h3
    simp at h3
    exact h3 hk
  rw [lookup_foldDataChildren_frame hook k _ _
    (fun p hp _ => ⟨(hframe' p hp).2.1, (hframe' p hp).2.2⟩)]
  rw [lookup_foldIdChildren_frame k _ _ ?hids]
  case hids =>
    intro cm hcm
    have hcm' := List.mem_of_mem_filter hcm
    rw [List.mem_map] at hcm'
    obtain ⟨p, hp, rfl⟩ := hcm'
    exact ⟨(hframe' p hp).1, (hframe' p hp).2.2⟩
  exact lookup_hydrateValueCols_num hook k q hhook own fsr hval

theorem rowIdKey_hydrateEntity (hook : Hook) (child : HNode) (idCol : String)
    (row : JVal)
    (hhook : ∀ s v, hook s (some (JVal.num v)) = JVal.num v)
    (hchildframe : ∀ p ∈ child.children, idCol ∉ touchedKeys p.1)
    (hrow : ∃ fsr, row = JVal.obj fsr
      ∧ ∃ q : ℚ, lookupField fsr idCol = some (JVal.num q)) :
    rowIdKey idCol (hydrateEntity hook child row) = rowIdKey idCol row := by
  obtain ⟨fsr, rfl, q, hq⟩ := hrow
  have h1 := lookup_hydrateEntity_num hook child idCol q fsr hhook hchildframe hq
  have h2 : ∃ gs, hydrateEntity hook child (JVal.obj fsr) = JVal.obj gs := by
    obtain ⟨own, children⟩ := child
    exact ⟨_, hydrateEntity_obj hook own children fsr⟩
  obtain ⟨gs, hgs⟩ := h2
  rw [hgs]
  rw [hgs] at h1
  show numKey ((lookupField gs idCol).getD JVal.null)
    = numKey ((lookupField fsr idCol).getD JVal.null)
  rw [hq]
  rw [show lookupField gs idCol = some (JVal.num q) from h1]

end EntityBuilder

namespace EntityBuilder

theorem objFields_obj (fs : List (String × JVal)) :
    objFields (JVal.obj fs) = fs := rfl

/-- C7: for a data child on a to-many relation, the hydrated property is
the array of child rows sorted ascending by the child's primary-key
column, each hydrated recursively; for a many-to-many relation the
own-side junction helper key is deleted from the row; a null or missing
value defaults to the empty array.  Frame hypotheses: the property (and,
for many-to-many, the helper key) is not an own column and not written by
other children; the entity's keys are unique; the driver hook is the
identity on numbers; the child rows are objects carrying a numeric
primary-key column which no grandchild overwrites. -/
theorem hydrate_toMany_data_child (hook : Hook) (own : List String)
    (pre post : List (ChildMeta × HNode)) (c : ChildMeta) (child : HNode)
    (fs : List (String × JVal))
    (hkind : c.kind = NodeKind.data) (htomany : c.toOne = false)
    (hkeys : (fs.map Prod.fst).Nodup)
    (hown : c.propertyName ∉ own)
    (hframe : ∀ p ∈ pre ++ post, c.propertyName ∉ touchedKeys p.1)
    (hframe2 : c.isManyToMany = true → ∀ p ∈ post, c.ownKeyName ∉ touchedKeys p.1)
    (hm2mneq : c.isManyToMany = true → c.ownKeyName ≠ c.propertyName)
    (hhook : ∀ s v, hook s (some (JVal.num v)) = JVal.num v)
    (hrows : ∀ row ∈ arrElems (lookupField fs c.propertyName),
      ∃ fsr, row = JVal.obj fsr
        ∧ ∃ q : ℚ, lookupField fsr c.idColumn = some (JVal.num q))
    (hchildframe : ∀ p ∈ child.children, c.idColumn ∉ touchedKeys p.1) :
    lookupField (objFields (hydrateEntity hook
        (HNode.mk own (pre ++ (c, child) :: post)) (JVal.obj fs)))
      c.propertyName
      = some (JVal.arr ((sortRowsAsc c.idColumn
          (arrElems (lookupField fs c.propertyName))).map
            (hydrateEntity hook child)))
    ∧ ((sortRowsAsc c.idColumn
        (arrElems (lookupField fs c.propertyName))).map
          (hydrateEntity hook child)).Pairwise
        (fun a b => rowIdKey c.idColumn a ≤ rowIdKey c.idColumn b)
    ∧ (c.isManyToMany = true →
      lookupField (objFields (hydrateEntity hook
          (HNode.mk own (pre ++ (c, child) :: post)) (JVal.obj fs)))
        c.ownKeyName = none)
    ∧ ((lookupField fs c.propertyName = none
        ∨ lookupField fs c.propertyName = some JVal.null) →
      (sortRowsAsc c.idColumn
        (arrElems (lookupField fs c.propertyName))).map
          (hydrateEntity hook child) = []) := by
  have hframe' : ∀ p ∈ pre ++ post,
      c.propertyName ≠ p.1.idPropertyName
      ∧ c.propertyName ≠ p.1.propertyName
      ∧ (p.1.isManyToMany = true → c.propertyName ≠ p.1.ownKeyName) := by
    intro p hp
    have h := hframe p hp
    unfold touchedKeys at h
    simp only [List.mem_cons] at h
    push_neg at h
    refine ⟨h.1, h.2.1, fun hm hk => ?_⟩
    have h3 := h.2.2
    rw [if_pos hm] at h3
    simp at h3
    exact h3 hk
  rw [hydrateEntity_obj, objFields_obj]
  -- name the intermediate field lists
  have hcnotids : (c.kind == NodeKind.ids) = false := by
    rw [hkind]
    rfl
  have hsplitIds : (((pre ++ (c, child) :: post).map Prod.fst).filter
      (fun c' => c'.kind == NodeKind.ids))
      = ((pre.map Prod.fst).filter (fun c' => c'.kind == NodeKind.ids))
        ++ ((post.map Prod.fst).filter (fun c' => c'.kind == NodeKind.ids)) := by
    rw [List.map_append, List.map_cons, List.filter_append,
      List.filter_cons_of_neg (by simpa using hcnotids)]
  have hkeysV : ((hydrateValueCols hook own fs).map Prod.fst).Nodup :=
    nodupKeys_hydrateValueCols hook own fs hkeys
  have hkeysI : ((((pre ++ (c, child) :: post).map Prod.fst).filter
      (fun c' => c'.kind == NodeKind.ids)).foldl hydrateIdChild
        (hydrateValueCols hook own fs)).map Prod.fst |>.Nodup :=
    nodupKeys_foldIdChildren _ _ hkeysV
  have hlookupI : lookupField ((((pre ++ (c, child) :: post).map Prod.fst).filter
      (fun c' => c'.kind == NodeKind.ids)).foldl hydrateIdChild
        (hydrateValueCols hook own fs)) c.propertyName
      = lookupField fs c.propertyName := by
    rw [hsplitIds, List.foldl_append]
    have hfr : ∀ (seg : List (ChildMeta × HNode)),
        (∀ p ∈ seg, p ∈ pre ++ post) →
        ∀ cm ∈ (seg.map Prod.fst).filter (fun c' => c'.kind == NodeKind.ids),
          c.propertyName ≠ cm.idPropertyName
          ∧ (cm.isManyToMany = true → c.propertyName ≠ cm.ownKeyName) := by
      intro seg hseg cm hcm
      have hcm' := List.mem_of_mem_filter hcm
      rw [List.mem_map] at hcm'
      obtain ⟨p, hp, rfl⟩ := hcm'
      obtain ⟨h1, -, h3⟩ := hframe' p (hseg p hp)
      exact ⟨h1, h3⟩
    rw [lookup_foldIdChildren_frame _ _ _
        (hfr post (fun p hp => List.mem_append.mpr (Or.inr hp))),
      lookup_foldIdChildren_frame _ _ _
        (hfr pre (fun p hp => List.mem_append.mpr (Or.inl hp))),
      lookup_hydrateValueCols_frame hook _ own fs hown]
  -- decompose the data pass
  rw [hydrateDataChildren_eq_steps, List.foldl_append, List.foldl_cons,
    ← hydrateDataChildren_eq_steps, ← hydrateDataChildren_eq_steps]
  have hpreframe : ∀ p ∈ pre, p.1.kind = NodeKind.data →
      c.propertyName ≠ p.1.propertyName
      ∧ (p.1.isManyToMany = true → c.propertyName ≠ p.1.ownKeyName) := by
    intro p hp _
    obtain ⟨-, h2, h3⟩ := hframe' p (List.mem_append.mpr (Or.inl hp))
    exact ⟨h2, h3⟩
  have hpostframe : ∀ p ∈ post, p.1.kind = NodeKind.data →
      c.propertyName ≠ p.1.propertyName
      ∧ (p.1.isManyToMany = true → c.propertyName ≠ p.1.ownKeyName) := by
    intro p hp _
    obtain ⟨-, h2, h3⟩ := hframe' p (List.mem_append.mpr (Or.inr hp))
    exact ⟨h2, h3⟩
  have hlookupPre : lookupField (hydrateDataChildren hook pre
      ((((pre ++ (c, child) :: post).map Prod.fst).filter
        (fun c' => c'.kind == NodeKind.ids)).foldl hydrateIdChild
          (hydrateValueCols hook own fs))) c.propertyName
      = lookupField fs c.propertyName := by
    rw [lookup_foldDataChildren_frame hook _ _ _ hpreframe, hlookupI]
  have hkeysPre : ((hydrateDataChildren hook pre
      ((((pre ++ (c, child) :: post).map Prod.fst).filter
        (fun c' => c'.kind == NodeKind.ids)).foldl hydrateIdChild
          (hydrateValueCols hook own fs))).map Prod.fst).Nodup :=
    nodupKeys_hydrateDataChildren hook pre _ hkeysI
  -- the step for the child itself
  have hstep : hydrateDataStep hook c child
      (hydrateDataChildren hook pre
        ((((pre ++ (c, child) :: post).map Prod.fst).filter
          (fun c' => c'.kind == NodeKind.ids)).foldl hydrateIdChild
            (hydrateValueCols hook own fs)))
      = (if c.isManyToMany then
          eraseField (setField (hydrateDataChildren hook pre
            ((((pre ++ (c, child) :: post).map Prod.fst).filter
              (fun c' => c'.kind == NodeKind.ids)).foldl hydrateIdChild
                (hydrateValueCols hook own fs))) c.propertyName
            (JVal.arr ((sortRowsAsc c.idColumn
              (arrElems (lookupField fs c.propertyName))).map
                (hydrateEntity hook child)))) c.ownKeyName
        else setField (hydrateDataChildren hook pre
            ((((pre ++ (c, child) :: post).map Prod.fst).filter
              (fun c' => c'.kind == NodeKind.ids)).foldl hydrateIdChild
                (hydrateValueCols hook own fs))) c.propertyName
            (JVal.arr ((sortRowsAsc c.idColumn
              (arrElems (lookupField fs c.propertyName))).map
                (hydrateEntity hook child)))) := by
    unfold hydrateDataStep
    rw [if_pos (by rw [hkind]; rfl),
      if_neg (by rw [htomany]; exact Bool.false_ne_true), hlookupPre]
  rw [hstep]
  refine ⟨?_, ?_, ?_, ?_⟩
  · -- conclusion 1: the property value
    rw [lookup_foldDataChildren_frame hook _ _ _ hpostframe]
    by_cases hm : c.isManyToMany
    · simp only [if_pos hm]
      rw [lookup_eraseField_ne _ _ _ (fun he => hm2mneq hm he.symm),
        lookup_setField_self]
    · simp only [if_neg hm]
      rw [lookup_setField_self]
  · -- conclusion 2: sorted by the child primary key
    have hsorted := sortRowsAsc_sorted c.idColumn
      (arrElems (lookupField fs c.propertyName))
    rw [List.pairwise_map]
    refine hsorted.imp_of_mem ?_
    intro a b ha hb hle
    have hpa := rowIdKey_hydrateEntity hook child c.idColumn a hhook hchildframe
      (hrows a ((sortRowsAsc_perm _ _).subset ha))
    have hpb := rowIdKey_hydrateEntity hook child c.idColumn b hhook hchildframe
      (hrows b ((sortRowsAsc_perm _ _).subset hb))
    rw [hpa, hpb]
    exact hle
  · -- conclusion 3: junction helper key deleted
    intro hm
    simp only [if_pos hm]
    rw [lookup_foldDataChildren_frame hook _ _ _ ?hpost2]
    case hpost2 =>
      intro p hp _
      have h := hframe2 hm p hp
      unfold touchedKeys at h
      simp only [List.mem_cons] at h
      push_neg at h
      refine ⟨h.2.1, fun hm' hk => ?_⟩
      have h3 := h.2.2
      rw [if_pos hm'] at h3
      simp at h3
      exact h3 hk
    exact lookup_eraseField_self _ _ (nodupKeys_setField _ _ _ hkeysPre)
  · -- conclusion 4: null or missing value defaults to []
    intro h
    rcases h with h | h <;> rw [h] <;> rfl

end EntityBuilder

namespace EntityBuilder

/-- The data witness child: a many-to-many data child under `kids`,
grouped through the junction helper key `jk`. -/
def wToManyDataChild : ChildMeta :=
  { kind := NodeKind.data, toOne := false, isManyToMany := true,
    idColumn := "id", propertyName := "kids", idPropertyName := "kidIds",
    ownKeyName := "jk" }

/-- Witness entity for C7: two child rows out of order plus the junction
helper key. -/
def wDataFs : List (String × JVal) :=
  [("x", JVal.num 1),
    ("kids", JVal.arr
      [JVal.obj [("id", JVal.num 2), ("y", JVal.num 20)],
        JVal.obj [("id", JVal.num 1), ("y", JVal.num 10)]]),
    ("jk", JVal.num 4)]

/-- Witness for C7: rows get sorted ascending by `id` and the helper key
`jk` disappears. -/
theorem hydrate_toMany_data_child_witness :
    lookupField (objFields (hydrateEntity wHook
        (HNode.mk ["x"] [(wToManyDataChild, HNode.mk ["id", "y"] [])])
        (JVal.obj wDataFs))) "kids"
      = some (JVal.arr
          [JVal.obj [("id", JVal.num 1), ("y", JVal.num 10)],
            JVal.obj [("id", JVal.num 2), ("y", JVal.num 20)]])
    ∧ lookupField (objFields (hydrateEntity wHook
        (HNode.mk ["x"] [(wToManyDataChild, HNode.mk ["id", "y"] [])])
        (JVal.obj wDataFs))) "jk" = none := by
  have h := hydrate_toMany_data_child wHook ["x"] [] [] wToManyDataChild
    (HNode.mk ["id", "y"] []) wDataFs rfl rfl (by decide) (by decide)
    (by simp) (fun _ p hp => absurd hp (List.not_mem_nil p))
    (fun _ => by decide) (fun s v => rfl) ?hrows
    (fun p hp => absurd hp (List.not_mem_nil p))
  case hrows =>
    intro row hr
    have hr' : row ∈ [JVal.obj [("id", JVal.num 2), ("y", JVal.num 20)],
        JVal.obj [("id", JVal.num 1), ("y", JVal.num 10)]] := hr
    rcases List.mem_cons.mp hr' with rfl | hr''
    · exact ⟨_, rfl, 2, rfl⟩
    · rcases List.mem_cons.mp hr'' with rfl | hr3
      · exact ⟨_, rfl, 1, rfl⟩
      · exact absurd hr3 (List.not_mem_nil _)
  exact ⟨h.1.trans rfl, h.2.2.1 rfl⟩

end EntityBuilder

/-! ## The query-tree builder: `_buildQueryTree`

`entity_builder.ts:649-684` with `setupAlias` from `entity_builder_util`
(`rel_${++aliasNum}`: aliases `rel_1`, `rel_2`, … from a counter starting
at 0 and pre-incremented).  Schema metadata is a total map from an entity
type (constructor name) to its table name and relations; a relation only
needs its target's metadata (`inverseEntityMetadata`), of which the
builder uses the table name (for matching `nested`) and which becomes the
`meta` of an ids leaf. -/

namespace EntityBuilder

/-- The decimal digit character of `d < 10`. -/
def digitChar (d : ℕ) : Char := Char.ofNat (48 + d)

/-- Decimal digits of `n`, most significant first (fuel-structural). -/
def natDecimalAux : ℕ → ℕ → List Char
  | 0, _ => []
  | _ + 1, 0 => []
  | fuel + 1, n + 1 =>
      natDecimalAux fuel ((n + 1) / 10) ++ [digitChar ((n + 1) % 10)]

/-- JavaScript decimal rendering of a natural number (`${n}`). -/
def natDecimal (n : ℕ) : List Char :=
  if n = 0 then ['0'] else natDecimalAux n n

/-- Numeric value of a digit character. -/
def charVal (c : Char) : ℕ := c.toNat - 48

/-- Value of a decimal digit run. -/
def digitsToNat (l : List Char) : ℕ :=
  l.foldl (fun a c => 10 * a + charVal c) 0

theorem charVal_digitChar (d : ℕ) (h : d < 10) : charVal (digitChar d) = d := by
  interval_cases d <;> decide

theorem digitsToNat_append_digit (l : List Char) (c : Char) :
    digitsToNat (l ++ [c]) = 10 * digitsToNat l + charVal c := by
  unfold digitsToNat
  rw [List.foldl_append]
  rfl

theorem digitsToNat_natDecimalAux :
    ∀ (fuel n : ℕ), n ≤ fuel → digitsToNat (natDecimalAux fuel n) = n := by
  intro fuel
  induction fuel with
  | zero =>
    intro n h
    have : n = 0 := by omega
    subst this
    rfl
  | succ k ih =>
    intro n h
    match n with
    | 0 => rfl
    | m + 1 =>
      rw [natDecimalAux, digitsToNat_append_digit,
        charVal_digitChar _ (Nat.mod_lt _ (by omega)),
        ih ((m + 1) / 10) (by omega)]
      omega

theorem digitsToNat_natDecimal (n : ℕ) : digitsToNat (natDecimal n) = n := by
  unfold natDecimal
  by_cases h : n = 0
  · subst h
    rfl
  · rw [if_neg h]
    exact digitsToNat_natDecimalAux n n le_rfl

theorem natDecimal_injective : Function.Injective natDecimal := by
  intro m n h
  have := congrArg digitsToNat h
  rwa [digitsToNat_natDecimal, digitsToNat_natDecimal] at this

/-- `rel_${n}` — the alias minted by `setupAlias` for counter value `n`. -/
def aliasName (n : ℕ) : String :=
  String.mk ('r' :: 'e' :: 'l' :: '_' :: natDecimal n)

theorem aliasName_injective : Function.Injective aliasName := by
  intro m n h
  injection h with h1
  simp only [List.cons.injEq, true_and] at h1
  exact natDecimal_injective h1

theorem aliasName_one : aliasName 1 = "rel_1" := by decide

theorem aliasName_twelve : aliasName 12 = "rel_12" := by decide

end EntityBuilder

namespace EntityBuilder

/-- Relation metadata as consumed by `_buildQueryTree`: the target
(`inverseEntityMetadata`) identified by its table name. -/
structure RelMeta where
  inverseTableName : String
deriving DecidableEq, Repr

/-- Entity metadata: table name and relations. -/
structure TblMeta where
  tableName : String
  relations : List RelMeta
deriving DecidableEq, Repr

/-- `entityManager.connection.getMetadata`, total over type names. -/
def TSchema : Type := String → TblMeta

/-- A caller-supplied fetch tree (`FetchNode<any>`; `node.nested || []`
is always materialized as a list). -/
inductive FetchNode where
  | mk (type : String) (nested : List FetchNode)

def FetchNode.type : FetchNode → String
  | .mk t _ => t

/-- The internal query tree node: kind, alias, table of its metadata,
children. -/
inductive QueryNode where
  | mk (kind : NodeKind) (aliasStr : String) (tableName : String)
      (nested : List QueryNode)

def QueryNode.kind : QueryNode → NodeKind
  | .mk k _ _ _ => k

mutual

/-- `_buildQueryTree` (`entity_builder.ts:649-675`): mint the root alias,
then produce one child per relation of the node's metadata — recursing
when a nested fetch node's table matches the relation's target table,
otherwise an ids leaf.  The counter state is threaded explicitly
(`setupAlias` mints `rel_${n+1}` at counter value `n`). -/
def buildQueryTree (s : TSchema) : FetchNode → ℕ → QueryNode × ℕ
  | FetchNode.mk ty nested, n =>
      let r := buildChildren s nested (s ty).relations (n + 1)
      (QueryNode.mk NodeKind.data (aliasName (n + 1)) (s ty).tableName r.1, r.2)
termination_by f n => (sizeOf f, 0)
decreasing_by
  apply Prod.Lex.left
  simp

/-- `meta.relations.map(...)` of `_buildQueryTree`, with the alias counter
threaded left to right. -/
def buildChildren (s : TSchema) (nested : List FetchNode) :
    List RelMeta → ℕ → List QueryNode × ℕ
  | [], n => ([], n)
  | rel :: rels, n =>
      match hfind : nested.find?
          (fun c => (s c.type).tableName == rel.inverseTableName) with
      | some childFetch =>
          let r1 := buildQueryTree s childFetch n
          let r2 := buildChildren s nested rels r1.2
          (r1.1 :: r2.1, r2.2)
      | none =>
          let r2 := buildChildren s nested rels (n + 1)
          (QueryNode.mk NodeKind.ids (aliasName (n + 1))
            rel.inverseTableName [] :: r2.1, r2.2)
termination_by rels n => (sizeOf nested, rels.length)
decreasing_by
  · apply Prod.Lex.left
    exact List.sizeOf_lt_of_mem (List.mem_of_find?_eq_some hfind)
  · apply Prod.Lex.right
    simp
  · apply Prod.Lex.right
    simp

end

mutual

/-- All aliases of a query tree, root first, children left to right (the
order in which `getAlias` minted them). -/
def collectAliases : QueryNode → List String
  | QueryNode.mk _ a _ nested => a :: collectAliasesList nested

def collectAliasesList : List QueryNode → List String
  | [] => []
  | q :: qs => collectAliases q ++ collectAliasesList qs

end

mutual

/-- Modelled from the spec (§ Query tree): the shape `_buildQueryTree`
must produce — root of kind `data` carrying the type's table, and exactly
one child per relation of the node's metadata: a `data` subtree when the
caller named the relation's target table in `nested`, else an `ids` leaf
with the relation's target table and no children. -/
inductive SpecTree (s : TSchema) : FetchNode → QueryNode → Prop where
  | node : ∀ (ty : String) (nested : List FetchNode) (a : String)
      (children : List QueryNode),
      SpecChildren s nested (s ty).relations children →
      SpecTree s (FetchNode.mk ty nested)
        (QueryNode.mk NodeKind.data a (s ty).tableName children)

/-- Modelled from the spec: one child per relation, in order. -/
inductive SpecChildren (s : TSchema) :
    List FetchNode → List RelMeta → List QueryNode → Prop where
  | nil : ∀ (nested : List FetchNode), SpecChildren s nested [] []
  | dataChild : ∀ (nested : List FetchNode) (rel : RelMeta)
      (rels : List RelMeta) (cf : FetchNode) (q : QueryNode)
      (qs : List QueryNode),
      nested.find? (fun c => (s c.type).tableName == rel.inverseTableName)
        = some cf →
      SpecTree s cf q →
      SpecChildren s nested rels qs →
      SpecChildren s nested (rel :: rels) (q :: qs)
  | idsChild : ∀ (nested : List FetchNode) (rel : RelMeta)
      (rels : List RelMeta) (a : String) (qs : List QueryNode),
      nested.find? (fun c => (s c.type).tableName == rel.inverseTableName)
        = none →
      SpecChildren s nested rels qs →
      SpecChildren s nested (rel :: rels)
        (QueryNode.mk NodeKind.ids a rel.inverseTableName [] :: qs)

end

end EntityBuilder

namespace EntityBuilder

theorem collectAliases_mk (k : NodeKind) (a t : String) (ns : List QueryNode) :
    collectAliases (QueryNode.mk k a t ns) = a :: collectAliasesList ns := rfl

theorem builder_strong (s : TSchema) :
    ∀ N : ℕ,
      (∀ f : FetchNode, sizeOf f ≤ N → ∀ n : ℕ,
        n < (buildQueryTree s f n).2
        ∧ collectAliases (buildQueryTree s f n).1
            = (List.range' (n + 1) ((buildQueryTree s f n).2 - n)).map aliasName
        ∧ SpecTree s f (buildQueryTree s f n).1)
      ∧ (∀ nested : List FetchNode, sizeOf nested ≤ N →
          ∀ (rels : List RelMeta) (n : ℕ),
        n ≤ (buildChildren s nested rels n).2
        ∧ collectAliasesList (buildChildren s nested rels n).1
            = (List.range' (n + 1) ((buildChildren s nested rels n).2 - n)).map
                aliasName
        ∧ SpecChildren s nested rels (buildChildren s nested rels n).1) := by
  intro N
  induction N using Nat.strong_induction_on with
  | _ N ih =>
    have hchildren : ∀ nested : List FetchNode, sizeOf nested ≤ N →
        ∀ (rels : List RelMeta) (n : ℕ),
        n ≤ (buildChildren s nested rels n).2
        ∧ collectAliasesList (buildChildren s nested rels n).1
            = (List.range' (n + 1) ((buildChildren s nested rels n).2 - n)).map
                aliasName
        ∧ SpecChildren s nested rels (buildChildren s nested rels n).1 := by
      intro nested hn rels
      induction rels with
      | nil =>
        intro n
        have heq : buildChildren s nested [] n = ([], n) := by
          rw [buildChildren]
        rw [heq]
        exact ⟨le_rfl, by simp [collectAliasesList], SpecChildren.nil nested⟩
      | cons rel rels ihr =>
        intro n
        cases hfind : nested.find?
            (fun c => (s c.type).tableName == rel.inverseTableName) with
        | some cf =>
          have hcf : sizeOf cf < N := by
            have h1 := List.sizeOf_lt_of_mem (List.mem_of_find?_eq_some hfind)
            omega
          have hbuild := (ih (sizeOf cf) hcf).1 cf le_rfl n
          obtain ⟨g1, g2, g3⟩ := hbuild
          obtain ⟨k1, k2, k3⟩ := ihr ((buildQueryTree s cf n).2)
          have heq : buildChildren s nested (rel :: rels) n
              = ((buildQueryTree s cf n).1
                  :: (buildChildren s nested rels (buildQueryTree s cf n).2).1,
                 (buildChildren s nested rels (buildQueryTree s cf n).2).2) := by
            rw [buildChildren]
            rw [hfind]
          rw [heq]
          refine ⟨by omega, ?_, ?_⟩
          · show collectAliases (buildQueryTree s cf n).1
              ++ collectAliasesList (buildChildren s nested rels
                  (buildQueryTree s cf n).2).1 = _
            rw [g2, k2]
            rw [← List.map_append]
            congr 1
            have h1 : (buildQueryTree s cf n).2 + 1
                = (n + 1) + ((buildQueryTree s cf n).2 - n) := by omega
            rw [h1, List.range'_append_1]
            congr 1
            omega
          · exact SpecChildren.dataChild nested rel rels cf _ _ hfind g3 k3
        | none =>
          obtain ⟨k1, k2, k3⟩ := ihr (n + 1)
          have heq : buildChildren s nested (rel :: rels) n
              = (QueryNode.mk NodeKind.ids (aliasName (n + 1))
                    rel.inverseTableName []
                  :: (buildChildren s nested rels (n + 1)).1,
                 (buildChildren s nested rels (n + 1)).2) := by
            rw [buildChildren]
            rw [hfind]
          rw [heq]
          refine ⟨by omega, ?_, ?_⟩
          · show collectAliases (QueryNode.mk NodeKind.ids (aliasName (n + 1))
                rel.inverseTableName [])
              ++ collectAliasesList (buildChildren s nested rels (n + 1)).1 = _
            rw [collectAliases_mk, k2]
            show aliasName (n + 1) :: List.map aliasName _ = _
            have h1 : (buildChildren s nested rels (n + 1)).2 - n
                = ((buildChildren s nested rels (n + 1)).2 - (n + 1)) + 1 := by
              omega
            rw [h1, List.range'_succ, List.map_cons]
          · exact SpecChildren.idsChild nested rel rels _ _ hfind k3
    refine ⟨?_, hchildren⟩
    intro f hf n
    match f with
    | FetchNode.mk ty nested =>
      have hlt : sizeOf nested < N := by
        have h1 : sizeOf nested < sizeOf (FetchNode.mk ty nested) := by
          simp
        omega
      obtain ⟨h1, h2, h3⟩ := (ih (sizeOf nested) hlt).2 nested le_rfl
        (s ty).relations (n + 1)
      have heq : buildQueryTree s (FetchNode.mk ty nested) n
          = (QueryNode.mk NodeKind.data (aliasName (n + 1)) (s ty).tableName
              (buildChildren s nested (s ty).relations (n + 1)).1,
             (buildChildren s nested (s ty).relations (n + 1)).2) := by
        rw [buildQueryTree]
      rw [heq]
      refine ⟨by omega, ?_, ?_⟩
      · rw [collectAliases_mk, h2]
        show aliasName (n + 1) :: List.map aliasName _ = _
        have hx : (buildChildren s nested (s ty).relations (n + 1)).2 - n
            = ((buildChildren s nested (s ty).relations (n + 1)).2 - (n + 1)) + 1 := by
          omega
        rw [hx, List.range'_succ, List.map_cons]
      · exact SpecTree.node ty nested _ _ h3

/-- C8: for every fetch tree and schema the built query tree has root kind
`data`; every relation of each node's metadata yields exactly one child —
a `data` subtree when a nested fetch node names the relation's target
table, else an `ids` leaf with no children (`SpecTree`); and the aliases
are `rel_<n+1>`, `rel_<n+2>`, … minted by the monotonic counter, one
consecutive block per tree, hence pairwise distinct. -/
theorem buildQueryTree_shape_aliases (s : TSchema) (f : FetchNode) (n : ℕ) :
    (buildQueryTree s f n).1.kind = NodeKind.data
    ∧ SpecTree s f (buildQueryTree s f n).1
    ∧ n < (buildQueryTree s f n).2
    ∧ collectAliases (buildQueryTree s f n).1
        = (List.range' (n + 1) ((buildQueryTree s f n).2 - n)).map aliasName
    ∧ (collectAliases (buildQueryTree s f n).1).Nodup := by
  obtain ⟨h1, h2, h3⟩ := (builder_strong s (sizeOf f)).1 f le_rfl n
  refine ⟨?_, h3, h1, h2, ?_⟩
  · match f with
    | FetchNode.mk ty nested =>
      rw [buildQueryTree]
      rfl
  · rw [h2]
    exact (List.nodup_range' _ _).map aliasName_injective

end EntityBuilder

/-! ## `setRelation`

`set_relation.ts:10-42`.  The entity manager is abstracted by an
existence check (`findOne` by table name and id) and a property reader
(the current value of a relation property as a list of related ids, `[]`
when unset — `ownEntity[propertyName] || []`).  The outcome records which
error is thrown or which side is assigned and saved, and with what
value. -/

namespace EntityBuilder

/-- Relation metadata consumed by `setRelation`. -/
structure SRel where
  propertyName : String
  inverseTableName : String
  isOwning : Bool
  isManyToMany : Bool
  inversePropertyName : Option String
deriving DecidableEq, Repr

/-- Entity metadata for `setRelation`. -/
structure SMeta where
  tableName : String
  relations : List SRel
deriving DecidableEq, Repr

/-- Outcome of `setRelation`: thrown error, or the performed assignment
and save.  `savedFrom prop v`: the `from` entity's property `prop` was
assigned `v` and the `from` entity saved; `savedTarget prop`: the `from`
entity was assigned into the target's inverse property `prop` and the
target saved. -/
inductive SROutcome where
  | errNoRelation
  | errOwnMissing
  | errTargetMissing
  | errNoInverse
  | savedFrom (prop : String) (value : List String)
  | savedTarget (prop : String)
deriving DecidableEq, Repr

/-- `setRelation` (`set_relation.ts:10-42`): find a direct relation from
`from.type` to `to.type` by target table name; fetch both entities
(existence check); if the relation is owning or many-to-many, assign on
the `from` entity (appending to the existing array for many-to-many,
replacing otherwise) and save it; otherwise assign the `from` entity on
the target through the inverse relation and save the target. -/
def setRelation (schema : String → SMeta)
    (entityExists : String → String → Bool)
    (getProp : String → String → String → List String)
    (fromType fromId toType toId : String) : SROutcome :=
  let ownMeta := schema fromType
  let targetMeta := schema toType
  match ownMeta.relations.find?
      (fun rel => rel.inverseTableName == targetMeta.tableName) with
  | none => SROutcome.errNoRelation
  | some relation =>
    if entityExists ownMeta.tableName fromId = false then SROutcome.errOwnMissing
    else if entityExists targetMeta.tableName toId = false then SROutcome.errTargetMissing
    else if relation.isOwning || relation.isManyToMany then
      SROutcome.savedFrom relation.propertyName
        (if relation.isManyToMany then
          getProp ownMeta.tableName fromId relation.propertyName ++ [toId]
        else [toId])
    else
      match relation.inversePropertyName with
      | none => SROutcome.errNoInverse
      | some invProp => SROutcome.savedTarget invProp

/-- Modelled from the spec (§6, `setRelation`): "assign on the owning
side".  The saved side is the owning side iff either the assignment went
to the `from` entity and the found relation is owning, or it went to the
target and the relation is not owning (the inverse side owns it). -/
def AssignsOnOwningSide (rel : SRel) : SROutcome → Prop
  | SROutcome.savedFrom _ _ => rel.isOwning = true
  | SROutcome.savedTarget _ => rel.isOwning = false
  | _ => True

/-- Concrete schema for the C9 counterexample: `origin`'s many-to-many
relation to `target` is NOT the owning side (the `JoinTable` lives on the
inverse side, as in the repository's own test fixtures). -/
def cOriginRel : SRel :=
  { propertyName := "Target"
    inverseTableName := "target"
    isOwning := false
    isManyToMany := true
    inversePropertyName := some "Origin" }

def cTargetRel : SRel :=
  { propertyName := "Origin"
    inverseTableName := "origin"
    isOwning := true
    isManyToMany := true
    inversePropertyName := some "Target" }

def cSchema : String → SMeta := fun ty =>
  if ty = "Origin" then { tableName := "origin", relations := [cOriginRel] }
  else { tableName := "target", relations := [cTargetRel] }

/-- Counterexample for C9: with both entities present and a non-owning
many-to-many relation from `Origin` to `Target`, `setRelation` assigns
and saves the `from` (non-owning) side — the claim "assigns the target on
the owning side of the relation" is false on the code. -/
theorem setRelation_owning_side_counterexample :
    setRelation cSchema (fun _ _ => true) (fun _ _ _ => ["7"])
        "Origin" "1" "Target" "2"
      = SROutcome.savedFrom "Target" ["7", "2"]
    ∧ ((cSchema "Origin").relations.find?
        (fun rel => rel.inverseTableName == (cSchema "Target").tableName)
      = some cOriginRel)
    ∧ cOriginRel.isOwning = false
    ∧ ¬ AssignsOnOwningSide cOriginRel
        (setRelation cSchema (fun _ _ => true) (fun _ _ _ => ["7"])
          "Origin" "1" "Target" "2") := by
  refine ⟨rfl, rfl, rfl, ?_⟩
  intro h
  have h2 : cOriginRel.isOwning = true := h
  exact absurd h2 (by decide)

/-- C9 as amended: `setRelation` finds a direct relation from `from.type`
to `to.type` (error when none) and checks both entities exist by id
(errors when absent, `from` first); for a **many-to-many** relation it
appends the target to the existing array on the `from` entity and saves
the `from` side regardless of which side owns the junction (the sole
departure from the original claim); for every other relation it assigns
on the owning side — the `from` entity when the relation is owning,
otherwise the target through the inverse relation (as for one-to-many
and the non-owning one-to-one) — and saves that side
(`AssignsOnOwningSide` holds whenever the relation is not
many-to-many). -/
theorem setRelation_behavior (schema : String → SMeta)
    (entityExists : String → String → Bool)
    (getProp : String → String → String → List String)
    (fromType fromId toType toId : String) :
    (((schema fromType).relations.find?
        (fun rel => rel.inverseTableName == (schema toType).tableName) = none) →
      setRelation schema entityExists getProp fromType fromId toType toId
        = SROutcome.errNoRelation)
    ∧ ∀ relation,
      ((schema fromType).relations.find?
        (fun rel => rel.inverseTableName == (schema toType).tableName)
          = some relation) →
      (entityExists (schema fromType).tableName fromId = false →
        setRelation schema entityExists getProp fromType fromId toType toId
          = SROutcome.errOwnMissing)
      ∧ (entityExists (schema fromType).tableName fromId = true →
          entityExists (schema toType).tableName toId = false →
        setRelation schema entityExists getProp fromType fromId toType toId
          = SROutcome.errTargetMissing)
      ∧ (entityExists (schema fromType).tableName fromId = true →
          entityExists (schema toType).tableName toId = true →
        (relation.isManyToMany = true →
          setRelation schema entityExists getProp fromType fromId toType toId
            = SROutcome.savedFrom relation.propertyName
                (getProp (schema fromType).tableName fromId
                  relation.propertyName ++ [toId]))
        ∧ (relation.isManyToMany = false → relation.isOwning = true →
          setRelation schema entityExists getProp fromType fromId toType toId
            = SROutcome.savedFrom relation.propertyName [toId])
        ∧ (relation.isManyToMany = false → relation.isOwning = false →
          ∀ invProp, relation.inversePropertyName = some invProp →
          setRelation schema entityExists getProp fromType fromId toType toId
            = SROutcome.savedTarget invProp)
        ∧ (relation.isManyToMany = false →
          AssignsOnOwningSide relation
            (setRelation schema entityExists getProp fromType fromId
              toType toId))) := by
  constructor
  · intro hnone
    simp only [setRelation]
    rw [hnone]
  · intro relation hfind
    refine ⟨?_, ?_, ?_⟩
    · intro hmiss
      simp only [setRelation]
      rw [hfind, hmiss]
      rfl
    · intro hown hmiss
      simp only [setRelation]
      rw [hfind, hown, hmiss]
      rfl
    · intro hown htgt
      refine ⟨?_, ?_, ?_, ?_⟩
      · intro hm
        simp only [setRelation]
        rw [hfind, hown, htgt]
        simp [hm]
      · intro hm hislocal
        simp only [setRelation]
        rw [hfind, hown, htgt]
        simp [hm, hislocal]
      · intro hm hnotown invProp hinv
        simp only [setRelation]
        rw [hfind, hown, htgt]
        simp [hm, hnotown, hinv]
      · intro hm
        by_cases ho : relation.isOwning
        · have heq : setRelation schema entityExists getProp fromType fromId
              toType toId = SROutcome.savedFrom relation.propertyName [toId] := by
            simp only [setRelation]
            rw [hfind, hown, htgt]
            simp [hm, ho]
          rw [heq]
          exact ho
        · have ho' : relation.isOwning = false := by simpa using ho
          cases hinv : relation.inversePropertyName with
          | some invProp =>
            have heq : setRelation schema entityExists getProp fromType fromId
                toType toId = SROutcome.savedTarget invProp := by
              simp only [setRelation]
              rw [hfind, hown, htgt]
              simp [hm, ho', hinv]
            rw [heq]
            exact ho'
          | none =>
            have heq : setRelation schema entityExists getProp fromType fromId
                toType toId = SROutcome.errNoInverse := by
              simp only [setRelation]
              rw [hfind, hown, htgt]
              simp [hm, ho', hinv]
            rw [heq]
            trivial

/-- A non-owning, non-many-to-many relation (the shape of a one-to-many
relation from the one side): the else branch of `set_relation.ts:34-41`
assigns the `from` entity into the target's inverse property. -/
def cOneToManyRel : SRel :=
  { propertyName := "Target"
    inverseTableName := "target"
    isOwning := false
    isManyToMany := false
    inversePropertyName := some "Origin" }

def cSchema2 : String → SMeta := fun ty =>
  if ty = "Origin" then { tableName := "origin", relations := [cOneToManyRel] }
  else { tableName := "target", relations := [] }

/-- Witness for the amended C9: the many-to-many branch appends and saves
the from side; a missing from entity errors; and for a non-owning
one-to-many relation the target (owning) side is assigned and saved, so
outside many-to-many the assignment is on the owning side. -/
theorem setRelation_behavior_witness :
    setRelation cSchema (fun _ _ => true) (fun _ _ _ => ["7"])
        "Origin" "1" "Target" "2"
      = SROutcome.savedFrom "Target" ["7", "2"]
    ∧ setRelation cSchema (fun _ _ => false) (fun _ _ _ => ["7"])
        "Origin" "1" "Target" "2"
      = SROutcome.errOwnMissing
    ∧ setRelation cSchema2 (fun _ _ => true) (fun _ _ _ => [])
        "Origin" "1" "Target" "2"
      = SROutcome.savedTarget "Origin"
    ∧ AssignsOnOwningSide cOneToManyRel
        (setRelation cSchema2 (fun _ _ => true) (fun _ _ _ => [])
          "Origin" "1" "Target" "2") :=
  ⟨(((setRelation_behavior cSchema (fun _ _ => true) (fun _ _ _ => ["7"])
      "Origin" "1" "Target" "2").2 cOriginRel rfl).2.2 rfl rfl).1 rfl,
    ((setRelation_behavior cSchema (fun _ _ => false) (fun _ _ _ => ["7"])
      "Origin" "1" "Target" "2").2 cOriginRel rfl).1 rfl,
    ((((setRelation_behavior cSchema2 (fun _ _ => true) (fun _ _ _ => [])
      "Origin" "1" "Target" "2").2 cOneToManyRel rfl).2.2 rfl rfl).2.2.1
        rfl rfl "Origin" rfl),
    ((((setRelation_behavior cSchema2 (fun _ _ => true) (fun _ _ _ => [])
      "Origin" "1" "Target" "2").2 cOneToManyRel rfl).2.2 rfl rfl).2.2.2 rfl)⟩

end EntityBuilder
